import Mathlib

/-!
# Instance status projection of the OpenStack compute service

A shallow embedding of `pkg/cloud/services/compute/instance_types.go`:
the decoding of the per-network address blobs of a server record
(`InstanceStatus.NetworkStatus`), the ordered listing and the lookups of the
normalized mapping (`InstanceNetworkStatus.Addresses`, `IP`, `FloatingIP`) and
the projection to the API summary (`InstanceStatus.APIInstance`).

Conventions of the embedding:

* a Go `map[string]T` is an association list `List (String × T)`; the order of
  the list is the order in which a `range` loop happens to visit the entries,
  and a well-formed map has pairwise distinct keys;
* a Go result pair `(*T, error)` is a pair `Option T × Option GoError`, where
  `none` is `nil`;
* a loop is a recursive function that carries the variables the loop mutates;
* the calls made on the logger are collected in a list, in program order.
-/

namespace Compute

/-! ## Go maps -/

/-- Map index expression `m[k]` with the comma-ok form: the value stored under `k`. -/
def mapGet {α : Type} : List (String × α) → String → Option α
  | [], _ => none
  | (k', v) :: rest, k => if k' = k then some v else mapGet rest k

/-- Map assignment `m[k] = v`: overwrites the entry of `k` or adds a new one. -/
def mapSet {α : Type} : List (String × α) → String → α → List (String × α)
  | [], k, v => [(k, v)]
  | (k', v') :: rest, k, v => if k' = k then (k, v) :: rest else (k', v') :: mapSet rest k v

/-- The keys of a map in iteration order. -/
def mapKeys {α : Type} (m : List (String × α)) : List String := m.map Prod.fst

/-- Go string comparison is bytewise; on UTF-8 text it is the order by code
points, which is the order of `String`. The instance is the one used to run
the sort. -/
instance stringLEDec : DecidableRel (fun a b : String => a ≤ b) :=
  fun a b => decidable_of_iff (a.toList ≤ b.toList) String.le_iff_toList_le.symm

/-- The call `sort.Strings(networks)`: the slice in ascending order. -/
def sortStrings (l : List String) : List String :=
  @List.insertionSort String (fun a b => a ≤ b) stringLEDec l

/-! ## Values handed to `encoding/json` -/

/-- A JSON document. Numbers are the `float64` values of the Go tree, kept as
exact rationals; the members of an object are listed in document order. -/
inductive JSONValue where
  | null
  | bool (b : Bool)
  | number (x : ℚ)
  | string (s : String)
  | array (elems : List JSONValue)
  | object (members : List (String × JSONValue))

/-- The name `encoding/json` gives to the kind of a JSON value in its errors. -/
def JSONValue.kind : JSONValue → String
  | .null => "null"
  | .bool _ => "bool"
  | .number _ => "number"
  | .string _ => "string"
  | .array _ => "array"
  | .object _ => "object"

/-- The value of type `interface{}` stored for one network in
`server.Addresses`: either a tree that `json.Marshal` renders as a JSON
document, or a Go value that `json.Marshal` rejects (a channel, a function, a
NaN). -/
inductive Blob where
  | unsupported (what : String)
  | value (v : JSONValue)

/-- The error of `json.Marshal` (`UnsupportedTypeError`, `UnsupportedValueError`). -/
structure MarshalError where
  what : String
deriving DecidableEq, Repr

/-- The error of `json.Unmarshal` on a value of the wrong kind
(`UnmarshalTypeError`): the JSON kind met, the Go type expected and the struct
field concerned (empty outside a struct). -/
structure UnmarshalTypeError where
  Value : String
  Type_ : String
  Field : String
deriving DecidableEq, Repr

/-- The errors built by `NetworkStatus` with `fmt.Errorf`: the instance ID and
the wrapped cause. -/
inductive GoError where
  | marshalling (instanceID : String) (cause : MarshalError)
  | unmarshalling (instanceID : String) (cause : UnmarshalTypeError)
deriving DecidableEq, Repr

/-- The call `json.Marshal(b)`. -/
def Marshal : Blob → Except MarshalError JSONValue
  | .unsupported what => .error ⟨what⟩
  | .value v => .ok v

/-- The struct `networkInterface` with its JSON field names `addr`, `version`
and `OS-EXT-IPS:type`. -/
structure networkInterface where
  Address : String
  Version : ℚ
  Type_ : String
deriving DecidableEq, Repr

/-- The zero value of `networkInterface`. -/
def networkInterface.zero : networkInterface := ⟨"", 0, ""⟩

/-- Simple case folding as far as it concerns ASCII names: the ASCII capitals,
the Kelvin sign and the long s. -/
def foldRune (c : Char) : Char :=
  if c = Char.ofNat 0x212A then 'k' else if c = Char.ofNat 0x17F then 's' else c.toLower

/-- How `encoding/json` matches an object key with a field name: exactly, or
else ignoring case. -/
def equalFold (key name : String) : Bool :=
  key.data.map foldRune == name.data.map foldRune

/-- Decoding of one object member into the struct: a key that matches no field
is skipped, `null` leaves the field as it is, a value of the wrong kind is an
error. -/
def decodeMember (ni : networkInterface) (key : String) (v : JSONValue) :
    Except UnmarshalTypeError networkInterface :=
  if equalFold key "addr" then
    match v with
    | .null => .ok ni
    | .string s => .ok { ni with Address := s }
    | other => .error ⟨other.kind, "string", "addr"⟩
  else if equalFold key "version" then
    match v with
    | .null => .ok ni
    | .number x => .ok { ni with Version := x }
    | other => .error ⟨other.kind, "float64", "version"⟩
  else if equalFold key "OS-EXT-IPS:type" then
    match v with
    | .null => .ok ni
    | .string s => .ok { ni with Type_ := s }
    | other => .error ⟨other.kind, "string", "OS-EXT-IPS:type"⟩
  else .ok ni

/-- Decoding of the members of an object, in document order. -/
def decodeMembers (ni : networkInterface) :
    List (String × JSONValue) → Except UnmarshalTypeError networkInterface
  | [] => .ok ni
  | (key, v) :: rest =>
    match decodeMember ni key v with
    | .error e => .error e
    | .ok ni' => decodeMembers ni' rest

/-- Decoding of one array element into a `networkInterface`. -/
def decodeElem : JSONValue → Except UnmarshalTypeError networkInterface
  | .null => .ok networkInterface.zero
  | .object members => decodeMembers networkInterface.zero members
  | other => .error ⟨other.kind, "compute.networkInterface", ""⟩

/-- Decoding of the elements of an array, in order. -/
def decodeElems : List JSONValue → Except UnmarshalTypeError (List networkInterface)
  | [] => .ok []
  | e :: rest =>
    match decodeElem e with
    | .error err => .error err
    | .ok ni =>
      match decodeElems rest with
      | .error err => .error err
      | .ok nis => .ok (ni :: nis)

/-- The call `json.Unmarshal(list, &interfaceList)` with
`interfaceList []networkInterface`. The first value of the wrong kind is the
error returned. -/
def Unmarshal : JSONValue → Except UnmarshalTypeError (List networkInterface)
  | .null => .ok []
  | .array elems => decodeElems elems
  | other => .error ⟨other.kind, "[]compute.networkInterface", ""⟩

/-! ## The types of the package -/

/-- The type `corev1.NodeAddressType`, a string type. -/
abbrev NodeAddressType := String

/-- The constant `corev1.NodeInternalIP`. -/
def NodeInternalIP : NodeAddressType := "InternalIP"

/-- The constant `corev1.NodeExternalIP`. -/
def NodeExternalIP : NodeAddressType := "ExternalIP"

/-- The struct `corev1.NodeAddress`. -/
structure NodeAddress where
  Type_ : NodeAddressType
  Address : String
deriving DecidableEq, Repr

/-- The type `infrav1.InstanceState`, a string type. -/
abbrev InstanceState := String

/-- Modelled from the spec: the struct `ServerExt` is declared outside the
files at hand; these are the fields of the raw server record that the
accessors read. -/
structure ServerExt where
  ID : String
  Name : String
  Status : String
  KeyName : String
  AvailabilityZone : String
  Addresses : List (String × Blob)

/-- A value passed to the logger among the keys and values of a call. -/
inductive LogValue where
  | str (s : String)
  | num (x : ℚ)
deriving DecidableEq, Repr

/-- One call `logger.V(V).Info(msg, keysAndValues...)`. -/
structure LogCall where
  V : Nat
  msg : String
  keysAndValues : List (String × LogValue)
deriving DecidableEq, Repr

/-- The logger held by an `InstanceStatus`, as far as it decides what reaches
its sink: the verbosity levels that are enabled. -/
structure Logger where
  Enabled : Nat → Bool

/-- The struct `InstanceStatus`; the server pointer is taken to be non-nil. -/
structure InstanceStatus where
  server : ServerExt
  logger : Logger

/-- The constructor `NewInstanceStatusFromServer`. -/
def NewInstanceStatusFromServer (server : ServerExt) (logger : Logger) : InstanceStatus :=
  ⟨server, logger⟩

/-- The struct `InstanceNetworkStatus`. -/
structure InstanceNetworkStatus where
  addresses : List (String × List NodeAddress)
deriving DecidableEq, Repr

/-- Modelled from the spec: the struct `infrav1.Instance` is declared outside
the files at hand; these are the six fields of the summary that `APIInstance`
assigns. -/
structure Instance where
  ID : String
  Name : String
  SSHKeyName : String
  State : InstanceState
  IP : String
  FloatingIP : String
deriving DecidableEq, Repr

/-- Modelled from the spec: the struct `infrav1.OpenStackCluster` is declared
outside the files at hand; `APIInstance` reads the cluster network name
`Status.Network.Name` of it. -/
structure OpenStackCluster where
  StatusNetworkName : String

/-- The struct `InstanceIdentifier`. -/
structure InstanceIdentifier where
  ID : String
  Name : String
deriving DecidableEq, Repr

/-! ## Accessors -/

/-- The method `InstanceStatus.ID`. -/
def InstanceStatus.ID (is : InstanceStatus) : String := is.server.ID

/-- The method `InstanceStatus.Name`. -/
def InstanceStatus.Name (is : InstanceStatus) : String := is.server.Name

/-- The method `InstanceStatus.State`: a conversion of the status string. -/
def InstanceStatus.State (is : InstanceStatus) : InstanceState := is.server.Status

/-- The method `InstanceStatus.SSHKeyName`. -/
def InstanceStatus.SSHKeyName (is : InstanceStatus) : String := is.server.KeyName

/-- The method `InstanceStatus.AvailabilityZone`. -/
def InstanceStatus.AvailabilityZone (is : InstanceStatus) : String :=
  is.server.AvailabilityZone

/-- The method `InstanceStatus.InstanceIdentifier`. -/
def InstanceStatus.InstanceIdentifier (is : InstanceStatus) : InstanceIdentifier :=
  ⟨is.ID, is.Name⟩

/-! ## NetworkStatus -/

/-- The notice of line 160: an entry whose version is not 4. -/
def ignoredVersionNotice (address : networkInterface) : LogCall :=
  ⟨6, "Ignoring IP address: only IPv4 is supported",
    [("version", .num address.Version), ("address", .str address.Address)]⟩

/-- The notice of line 171: an entry whose type is neither floating nor fixed. -/
def unknownTypeNotice (address : networkInterface) : LogCall :=
  ⟨6, "Ignoring address with unknown type",
    [("address", .str address.Address), ("type", .str address.Type_)]⟩

/-- The inner loop of `NetworkStatus` (lines 155 to 179) over `interfaceList`,
carrying the calls made on the logger so far and the slice `addresses`. -/
def classifyLoop (logs : List LogCall) (addresses : List NodeAddress) :
    List networkInterface → List LogCall × List NodeAddress
  | [] => (logs, addresses)
  | address :: rest =>
    if address.Version ≠ 4 then
      classifyLoop (logs ++ [ignoredVersionNotice address]) addresses rest
    else if address.Type_ = "floating" then
      classifyLoop logs (addresses ++ [⟨NodeExternalIP, address.Address⟩]) rest
    else if address.Type_ = "fixed" then
      classifyLoop logs (addresses ++ [⟨NodeInternalIP, address.Address⟩]) rest
    else
      classifyLoop (logs ++ [unknownTypeNotice address]) addresses rest

/-- The outer loop of `NetworkStatus` (lines 143 to 182) over the entries of
`server.Addresses` in iteration order, carrying the calls made on the logger
so far and the map `addressesByNetwork`; it ends with the return of line 184
or with one of the early returns. -/
def networkLoop (instanceID : String) (logs : List LogCall)
    (addressesByNetwork : List (String × List NodeAddress)) :
    List (String × Blob) →
      List LogCall × (Option InstanceNetworkStatus × Option GoError)
  | [] => (logs, (some ⟨addressesByNetwork⟩, none))
  | (networkName, b) :: rest =>
    match Marshal b with
    | .error err => (logs, (none, some (.marshalling instanceID err)))
    | .ok list =>
      match Unmarshal list with
      | .error err => (logs, (none, some (.unmarshalling instanceID err)))
      | .ok interfaceList =>
        let r := classifyLoop logs [] interfaceList
        networkLoop instanceID r.1 (mapSet addressesByNetwork networkName r.2) rest

/-- The method `InstanceStatus.NetworkStatus` together with the calls it makes
on the logger. -/
def InstanceStatus.NetworkStatusTrace (is : InstanceStatus) :
    List LogCall × (Option InstanceNetworkStatus × Option GoError) :=
  networkLoop is.ID [] [] is.server.Addresses

/-- The method `InstanceStatus.NetworkStatus`: its result pair. -/
def InstanceStatus.NetworkStatus (is : InstanceStatus) :
    Option InstanceNetworkStatus × Option GoError :=
  is.NetworkStatusTrace.2

/-- The calls that one run of `NetworkStatus` makes on the logger. -/
def InstanceStatus.NetworkStatusLogs (is : InstanceStatus) : List LogCall :=
  is.NetworkStatusTrace.1

/-- The records that reach the sink of the logger: those of an enabled level. -/
def Logger.delivered (l : Logger) (calls : List LogCall) : List LogCall :=
  calls.filter (fun c => l.Enabled c.V)

/-! ## InstanceNetworkStatus -/

/-- The method `InstanceNetworkStatus.Addresses`: the network names are
collected in iteration order and sorted, then the lists are appended in that
order. -/
def InstanceNetworkStatus.Addresses (ns : InstanceNetworkStatus) : List NodeAddress :=
  let networks := sortStrings (mapKeys ns.addresses)
  networks.foldl
    (fun addresses network => addresses ++ (mapGet ns.addresses network).getD []) []

/-- The loop of `firstAddressByNetworkAndType` over `addressList`; the empty
string when the loop ends without a return. -/
def firstOfType (addressType : NodeAddressType) : List NodeAddress → String
  | [] => ""
  | address :: rest =>
    if address.Type_ = addressType then address.Address else firstOfType addressType rest

/-- The method `InstanceNetworkStatus.firstAddressByNetworkAndType`. -/
def InstanceNetworkStatus.firstAddressByNetworkAndType (ns : InstanceNetworkStatus)
    (networkName : String) (addressType : NodeAddressType) : String :=
  match mapGet ns.addresses networkName with
  | some addressList => firstOfType addressType addressList
  | none => ""

/-- The method `InstanceNetworkStatus.IP`. -/
def InstanceNetworkStatus.IP (ns : InstanceNetworkStatus) (networkName : String) : String :=
  ns.firstAddressByNetworkAndType networkName NodeInternalIP

/-- The method `InstanceNetworkStatus.FloatingIP`. -/
def InstanceNetworkStatus.FloatingIP (ns : InstanceNetworkStatus) (networkName : String) :
    String :=
  ns.firstAddressByNetworkAndType networkName NodeExternalIP

/-! ## APIInstance -/

/-- The method `InstanceStatus.APIInstance`. The last case is the call of a
method on a nil `ns`, which `NetworkStatus` never lets happen. -/
def InstanceStatus.APIInstance (is : InstanceStatus) (openStackCluster : OpenStackCluster) :
    Option Instance × Option GoError :=
  let i : Instance := ⟨is.ID, is.Name, is.SSHKeyName, is.State, "", ""⟩
  match is.NetworkStatus with
  | (_, some err) => (none, some err)
  | (some ns, none) =>
    let clusterNetwork := openStackCluster.StatusNetworkName
    (some { i with IP := ns.IP clusterNetwork, FloatingIP := ns.FloatingIP clusterNetwork },
      none)
  | (none, none) => (none, none)

/-! ## Scenarios -/

/-- An address entry of the API as a JSON object. -/
def entryJSON (addr : String) (version : ℚ) (tag : String) : JSONValue :=
  .object [("OS-EXT-IPS:type", .string tag), ("addr", .string addr), ("version", .number version)]

/-- The server record of scenario A, network `pub` met first. -/
def scenarioA : InstanceStatus :=
  ⟨⟨"id-1", "node-1", "ACTIVE", "key-1", "nova",
     [("pub", .value (.array [entryJSON "1.2.3.4" 4 "floating"])),
      ("priv", .value (.array [entryJSON "10.0.0.5" 4 "fixed"]))]⟩, ⟨fun _ => true⟩⟩

/-- The normalized mapping of scenario A, network `pub` met first. -/
def statusA : InstanceNetworkStatus :=
  ⟨[("pub", [⟨NodeExternalIP, "1.2.3.4"⟩]), ("priv", [⟨NodeInternalIP, "10.0.0.5"⟩])]⟩

/-- The normalized mapping of scenario A, network `priv` met first. -/
def statusA' : InstanceNetworkStatus :=
  ⟨[("priv", [⟨NodeInternalIP, "10.0.0.5"⟩]), ("pub", [⟨NodeExternalIP, "1.2.3.4"⟩])]⟩



/-- An address entry of the API that lacks the IP version. -/
def entryNoVersionJSON (addr : String) (tag : String) : JSONValue :=
  .object [("OS-EXT-IPS:type", .string tag), ("addr", .string addr)]

/-- A server record with one network whose blob is the given JSON document. -/
def serverWith (doc : JSONValue) : InstanceStatus :=
  ⟨⟨"id-1", "node-1", "ACTIVE", "key-1", "nova", [("net", .value doc)]⟩, ⟨fun _ => true⟩⟩

/-- A network with version 4 entries whose tags are empty, differ from the
recognized ones in letter case only, or are unknown, followed by a fixed one. -/
def scenarioTags : InstanceStatus :=
  serverWith (.array [entryJSON "10.0.0.1" 4 "", entryJSON "10.0.0.2" 4 "Fixed",
    entryJSON "10.0.0.3" 4 "FLOATING", entryJSON "10.0.0.4" 4 "unknown",
    entryJSON "10.0.0.5" 4 "fixed"])

/-- A network with entries of version 6, of no version, of version 4.5, and
one of version 4. -/
def scenarioVersions : InstanceStatus :=
  serverWith (.array [entryJSON "fe80::1" 6 "fixed", entryNoVersionJSON "10.0.0.1" "fixed",
    entryJSON "10.0.0.2" (mkRat 9 2) "floating", entryJSON "10.0.0.5" 4 "fixed"])

/-- The server record of scenario D: the cluster network `priv` is valid and
the blob of network `bad` is a string, not a list. -/
def scenarioD : InstanceStatus :=
  ⟨⟨"id-1", "node-1", "ACTIVE", "key-1", "nova",
     [("priv", .value (.array [entryJSON "10.0.0.5" 4 "fixed"])),
      ("bad", .value (.string "oops"))]⟩, ⟨fun _ => true⟩⟩

/-- A JSON value that a string field accepts. -/
def stringOrNull : JSONValue → Bool
  | .null => true
  | .string _ => true
  | _ => false

/-- A JSON value that a number field accepts. -/
def numberOrNull : JSONValue → Bool
  | .null => true
  | .number _ => true
  | _ => false

/-- An object member that names one of the three fields and holds a value of
the wrong scalar type. -/
def wrongScalar (m : String × JSONValue) : Bool :=
  (equalFold m.1 "addr" && !stringOrNull m.2) ||
    (equalFold m.1 "version" && !numberOrNull m.2) ||
    (equalFold m.1 "OS-EXT-IPS:type" && !stringOrNull m.2)

/-- A list element that is neither an object nor null, or an object with a
member of the wrong scalar type. -/
def wrongElement : JSONValue → Bool
  | .null => false
  | .object members => members.any wrongScalar
  | _ => true

/-- A document that is neither a list nor null, or a list with a wrong element. -/
def wrongDocument : JSONValue → Bool
  | .null => false
  | .array elems => elems.any wrongElement
  | _ => true

/-- A blob of the wrong structural type: one that cannot be marshalled, or
whose document is wrong. -/
def wrongShape : Blob → Bool
  | .unsupported _ => true
  | .value v => wrongDocument v

/-! ## Descriptions used to state the properties -/

/-- The slice `interfaceList` that `NetworkStatus` obtains from the blob of a
network with `json.Marshal` and `json.Unmarshal`, when both succeed. -/
def interfaceListOf (b : Blob) : Option (List networkInterface) :=
  match Marshal b with
  | .error _ => none
  | .ok list =>
    match Unmarshal list with
    | .error _ => none
    | .ok interfaceList => some interfaceList

/-- The slice `addresses` that the inner loop of `NetworkStatus` builds from an
`interfaceList`. -/
def normalizedList (interfaceList : List networkInterface) : List NodeAddress :=
  (classifyLoop [] [] interfaceList).2

/-- The entries the specification retains: IP version 4 and an interface tag
that is `fixed` or `floating`. -/
def qualifies (e : networkInterface) : Prop :=
  e.Version = 4 ∧ (e.Type_ = "fixed" ∨ e.Type_ = "floating")

instance qualifiesDec (e : networkInterface) : Decidable (qualifies e) := by
  unfold qualifies
  exact inferInstance

/-- The classified address the specification assigns to a retained entry:
`floating` is external, `fixed` is internal. -/
def toNodeAddress (e : networkInterface) : NodeAddress :=
  ⟨if e.Type_ = "floating" then NodeExternalIP else NodeInternalIP, e.Address⟩

/-- The addresses one decoded entry yields according to the specification. -/
def yield (e : networkInterface) : List NodeAddress :=
  if e.Version = 4 ∧ e.Type_ = "floating" then [⟨NodeExternalIP, e.Address⟩]
  else if e.Version = 4 ∧ e.Type_ = "fixed" then [⟨NodeInternalIP, e.Address⟩]
  else []

/-- The map `addressesByNetwork` after the outer loop has run over entries
that all decode. -/
def normalizedMap (acc : List (String × List NodeAddress)) (entries : List (String × Blob)) :
    List (String × List NodeAddress) :=
  entries.foldl
    (fun m e => mapSet m e.1 (normalizedList ((interfaceListOf e.2).getD []))) acc

/-! ## Descriptions of the run of NetworkStatus -/

/-- The calls on the logger that one decoded entry causes in the inner loop:
one notice for an entry that is dropped, none for an entry that is retained. -/
def notice (e : networkInterface) : List LogCall :=
  if e.Version ≠ 4 then [ignoredVersionNotice e]
  else if e.Type_ = "floating" ∨ e.Type_ = "fixed" then []
  else [unknownTypeNotice e]

/-- What the body of the outer loop makes of the blob of one network: the
error of an early return, or the slice `addresses` to store. -/
def blobOutcome (instanceID : String) (b : Blob) : Except GoError (List NodeAddress) :=
  match Marshal b with
  | .error err => .error (.marshalling instanceID err)
  | .ok list =>
    match Unmarshal list with
    | .error err => .error (.unmarshalling instanceID err)
    | .ok interfaceList => .ok (normalizedList interfaceList)

/-- The result pair of the outer loop, without the logger. -/
def loopResult (instanceID : String) (acc : List (String × List NodeAddress)) :
    List (String × Blob) → Option InstanceNetworkStatus × Option GoError
  | [] => (some ⟨acc⟩, none)
  | (networkName, b) :: rest =>
    match blobOutcome instanceID b with
    | .error err => (none, some err)
    | .ok addresses => loopResult instanceID (mapSet acc networkName addresses) rest

/-- The calls on the logger made by the outer loop: the notices of the
networks met before the loop ends. -/
def loopLogs : List (String × Blob) → List LogCall
  | [] => []
  | (_, b) :: rest =>
    match interfaceListOf b with
    | none => []
    | some interfaceList => interfaceList.flatMap notice ++ loopLogs rest

/-- One call of `NetworkStatus` on an `InstanceStatus` whose logger has
received the calls `sink` so far. Every call draws its own iteration order for
the `range` over `server.Addresses`: `order` is the sequence in which this call
meets the entries. The result is the receiver (no field of which is assigned),
the calls received by the logger after the call, and the result pair. -/
def InstanceStatus.callNetworkStatus (is : InstanceStatus) (order : List (String × Blob))
    (sink : List LogCall) :
    InstanceStatus × List LogCall × (Option InstanceNetworkStatus × Option GoError) :=
  let r := networkLoop is.ID sink [] order
  (is, r.1, r.2)

/-- The server record of an `InstanceStatus` with other entries in
`Addresses`. -/
def InstanceStatus.withAddresses (is : InstanceStatus) (entries : List (String × Blob)) :
    InstanceStatus :=
  ⟨{ is.server with Addresses := entries }, is.logger⟩

/-- The server record of scenario D with the malformed network under another
name. -/
def scenarioDRenamed : InstanceStatus :=
  ⟨⟨"id-1", "node-1", "ACTIVE", "key-1", "nova",
     [("priv", .value (.array [entryJSON "10.0.0.5" 4 "fixed"])),
      ("worse", .value (.string "oops"))]⟩, ⟨fun _ => true⟩⟩

/-- An entry of the shape the API defines, as the specification words it: an
object carrying the string address, the numeric IP version and the string
interface tag of `e`, whose other members name none of the three fields. -/
def wellFormedEntry (v : JSONValue) (e : networkInterface) : Prop :=
  ∃ members, v = .object members ∧
    ("addr", JSONValue.string e.Address) ∈ members ∧
    ("version", JSONValue.number e.Version) ∈ members ∧
    ("OS-EXT-IPS:type", JSONValue.string e.Type_) ∈ members ∧
    ∀ m ∈ members,
      m = ("addr", JSONValue.string e.Address) ∨
      m = ("version", JSONValue.number e.Version) ∨
      m = ("OS-EXT-IPS:type", JSONValue.string e.Type_) ∨
      (equalFold m.1 "addr" = false ∧ equalFold m.1 "version" = false ∧
        equalFold m.1 "OS-EXT-IPS:type" = false)

/-- A network with an entry of version 6, a version 4 entry of unknown tag and
a fixed version 4 entry, each with the hardware address the API adds. -/
def scenarioMixed : InstanceStatus :=
  serverWith (.array [
    .object [("OS-EXT-IPS-MAC:mac_addr", .string "fa:16:3e:00:00:01"),
      ("OS-EXT-IPS:type", .string "fixed"), ("addr", .string "fe80::1"),
      ("version", .number 6)],
    entryJSON "10.0.0.4" 4 "unknown",
    entryJSON "10.0.0.5" 4 "fixed"])

/-- A network with a single fixed version 4 entry. -/
def scenarioFixedOnly : InstanceStatus :=
  serverWith (.array [entryJSON "10.0.0.5" 4 "fixed"])

/-- One call of `APIInstance` on an `InstanceStatus` whose logger has received
the calls `sink` so far; `order` is the iteration order drawn by the one call
of `NetworkStatus` it makes. -/
def InstanceStatus.callAPIInstance (is : InstanceStatus) (openStackCluster : OpenStackCluster)
    (order : List (String × Blob)) (sink : List LogCall) :
    InstanceStatus × List LogCall × (Option Instance × Option GoError) :=
  let i : Instance := ⟨is.ID, is.Name, is.SSHKeyName, is.State, "", ""⟩
  let r := is.callNetworkStatus order sink
  match r.2.2 with
  | (_, some err) => (r.1, r.2.1, (none, some err))
  | (some ns, none) =>
    let clusterNetwork := openStackCluster.StatusNetworkName
    (r.1, r.2.1,
      (some { i with IP := ns.IP clusterNetwork, FloatingIP := ns.FloatingIP clusterNetwork },
        none))
  | (none, none) => (r.1, r.2.1, (none, none))

/-- A server record with two networks whose blobs do not decode: one that
`json.Marshal` rejects and one that is a string. -/
def scenarioTwoBad : InstanceStatus :=
  ⟨⟨"id-1", "node-1", "ACTIVE", "key-1", "nova",
     [("m", .unsupported "chan"), ("u", .value (.string "oops"))]⟩, ⟨fun _ => true⟩⟩

/-- A server record with a network whose entries are all dropped, a network
with an empty list, and a network with one retained entry. -/
def scenarioEmpty : InstanceStatus :=
  ⟨⟨"id-1", "node-1", "ACTIVE", "key-1", "nova",
     [("dropped", .value (.array [entryJSON "fe80::1" 6 "fixed",
        entryJSON "10.0.0.4" 4 "unknown"])),
      ("empty", .value (.array [])),
      ("priv", .value (.array [entryJSON "10.0.0.5" 4 "fixed"]))]⟩, ⟨fun _ => true⟩⟩

/-- A server record that agrees with scenario A on network `priv` and holds
another network beside it. -/
def scenarioOther : InstanceStatus :=
  ⟨⟨"id-2", "node-2", "ACTIVE", "key-2", "nova",
     [("priv", .value (.array [entryJSON "10.0.0.5" 4 "fixed"])),
      ("other", .value (.array [entryJSON "192.168.0.9" 4 "floating"]))]⟩, ⟨fun _ => true⟩⟩

/-! ## Lemmas on maps and sorting -/

theorem mapGet_perm {α : Type} {m₁ m₂ : List (String × α)} (h : m₁.Perm m₂)
    (nd : (mapKeys m₁).Nodup) (k : String) : mapGet m₁ k = mapGet m₂ k := by
  induction h with
  | nil => rfl
  | cons x _ ih =>
    obtain ⟨k', v⟩ := x
    simp only [mapKeys, List.map_cons, List.nodup_cons] at nd
    simp only [mapGet]
    split
    · rfl
    · exact ih nd.2
  | swap x y l =>
    obtain ⟨kx, vx⟩ := x
    obtain ⟨ky, vy⟩ := y
    simp only [mapKeys, List.map_cons, List.nodup_cons, List.mem_cons, not_or] at nd
    simp only [mapGet]
    by_cases h1 : ky = k
    · by_cases h2 : kx = k
      · exact absurd (h1.trans h2.symm) nd.1.1
      · simp [h1, h2]
    · by_cases h2 : kx = k
      · simp [h1, h2]
      · simp [h1, h2]
  | trans h₁ _ ih₁ ih₂ =>
    exact (ih₁ nd).trans (ih₂ ((h₁.map Prod.fst).nodup_iff.1 nd))

theorem sortStrings_perm (l : List String) : (sortStrings l).Perm l :=
  List.perm_insertionSort _ l

theorem sortStrings_sorted (l : List String) : (sortStrings l).Sorted (fun a b => a ≤ b) :=
  List.sorted_insertionSort _ l

theorem sortStrings_eq_of_perm {l₁ l₂ : List String} (h : l₁.Perm l₂) :
    sortStrings l₁ = sortStrings l₂ :=
  List.eq_of_perm_of_sorted
    (((sortStrings_perm l₁).trans h).trans (sortStrings_perm l₂).symm)
    (sortStrings_sorted l₁) (sortStrings_sorted l₂)

theorem sortStrings_of_sorted {l : List String} (h : l.Sorted (fun a b => a < b)) :
    sortStrings l = l :=
  List.eq_of_perm_of_sorted (sortStrings_perm l) (sortStrings_sorted l)
    (h.imp (fun hab => le_of_lt hab))

theorem foldl_append_eq_flatMap {α β : Type} (f : α → List β) (l : List α) (acc : List β) :
    l.foldl (fun addresses x => addresses ++ f x) acc = acc ++ l.flatMap f := by
  induction l generalizing acc with
  | nil => simp
  | cons x rest ih => simp [ih, List.append_assoc]

theorem Addresses_eq_flatMap (ns : InstanceNetworkStatus) :
    ns.Addresses =
      (sortStrings (mapKeys ns.addresses)).flatMap
        (fun network => (mapGet ns.addresses network).getD []) := by
  simp [InstanceNetworkStatus.Addresses, foldl_append_eq_flatMap]

theorem flatMap_mapGet_of_nodup (m : List (String × List NodeAddress))
    (nd : (mapKeys m).Nodup) :
    (mapKeys m).flatMap (fun network => (mapGet m network).getD []) =
      m.flatMap Prod.snd := by
  induction m with
  | nil => rfl
  | cons x rest ih =>
    obtain ⟨k, v⟩ := x
    simp only [mapKeys, List.map_cons, List.nodup_cons] at nd
    have hrest : ∀ ks : List String, k ∉ ks →
        ks.flatMap (fun network => (mapGet ((k, v) :: rest) network).getD []) =
          ks.flatMap (fun network => (mapGet rest network).getD []) := by
      intro ks
      induction ks with
      | nil => intro _; rfl
      | cons a as iha =>
        intro hk
        simp only [List.mem_cons, not_or] at hk
        rw [List.flatMap_cons, List.flatMap_cons, iha hk.2]
        simp only [mapGet, if_neg hk.1]
    simp only [mapKeys, List.map_cons, List.flatMap_cons]
    rw [hrest _ nd.1]
    simp only [mapGet, if_true, Option.getD_some]
    exact congrArg _ (ih nd.2)

theorem Addresses_perm_eq {m₁ m₂ : List (String × List NodeAddress)}
    (nd : (mapKeys m₁).Nodup) (h : m₁.Perm m₂) :
    InstanceNetworkStatus.Addresses ⟨m₁⟩ = InstanceNetworkStatus.Addresses ⟨m₂⟩ := by
  rw [Addresses_eq_flatMap, Addresses_eq_flatMap]
  have hk : sortStrings (mapKeys m₁) = sortStrings (mapKeys m₂) :=
    sortStrings_eq_of_perm (h.map Prod.fst)
  have hf : (fun network => (mapGet m₁ network).getD []) =
      (fun network => (mapGet m₂ network).getD []) := by
    funext network
    rw [mapGet_perm h nd network]
  simp only [hk, hf]

theorem Addresses_of_sorted (l : List (String × List NodeAddress))
    (hs : (mapKeys l).Sorted (fun a b => a < b)) :
    InstanceNetworkStatus.Addresses ⟨l⟩ = l.flatMap Prod.snd := by
  rw [Addresses_eq_flatMap]
  simp only [sortStrings_of_sorted hs]
  exact flatMap_mapGet_of_nodup l hs.nodup

theorem exists_sorted_perm (m : List (String × List NodeAddress))
    (nd : (mapKeys m).Nodup) :
    ∃ l : List (String × List NodeAddress),
      l.Perm m ∧ (mapKeys l).Sorted (fun a b => a < b) := by
  let r : String × List NodeAddress → String × List NodeAddress → Prop :=
    fun a b => a.1 ≤ b.1
  haveI : DecidableRel r := fun a b => stringLEDec a.1 b.1
  haveI : IsTotal (String × List NodeAddress) r := ⟨fun a b => le_total a.1 b.1⟩
  haveI : IsTrans (String × List NodeAddress) r := ⟨fun a b c hab hbc => le_trans hab hbc⟩
  refine ⟨List.insertionSort r m, List.perm_insertionSort r m, ?_⟩
  have hp : (List.insertionSort r m).Perm m := List.perm_insertionSort r m
  have hsorted : (List.insertionSort r m).Sorted r := List.sorted_insertionSort r m
  have hle : (mapKeys (List.insertionSort r m)).Sorted (fun a b => a ≤ b) := by
    unfold mapKeys
    exact List.pairwise_map.2 hsorted
  exact hle.lt_of_le ((hp.map Prod.fst).nodup_iff.2 nd)

/-! ## The listing of the addresses -/

/-- C1: two mappings with the same entries (network names unique), met in
different iteration orders, give the same sequence `Addresses()`. -/
theorem Addresses_iteration_order_independent (ns₁ ns₂ : InstanceNetworkStatus)
    (hunique : (mapKeys ns₁.addresses).Nodup)
    (hperm : ns₁.addresses.Perm ns₂.addresses) :
    ns₁.Addresses = ns₂.Addresses :=
  Addresses_perm_eq hunique hperm

/-- Witness of C1 on scenario A, with the two networks met in either order. -/
theorem Addresses_iteration_order_independent_witness :
    (mapKeys statusA.addresses).Nodup ∧ statusA.addresses.Perm statusA'.addresses ∧
      statusA.Addresses = statusA'.Addresses :=
  ⟨by decide, List.Perm.swap _ _ _,
    Addresses_iteration_order_independent statusA statusA' (by decide)
      (List.Perm.swap _ _ _)⟩

/-- C2: `Addresses()` is the concatenation of the per-network lists taken in
strictly ascending order of network name, each list in its stored order: it
equals the concatenation along every arrangement of the entries with strictly
ascending names, and such an arrangement exists. On scenario A the result is
the internal address of `priv` followed by the external address of `pub`, and
on the empty mapping it is empty. -/
theorem Addresses_concat_ascending (ns : InstanceNetworkStatus)
    (hunique : (mapKeys ns.addresses).Nodup) :
    (∀ l : List (String × List NodeAddress), l.Perm ns.addresses →
        (mapKeys l).Sorted (fun a b => a < b) → ns.Addresses = l.flatMap Prod.snd) ∧
      (∃ l : List (String × List NodeAddress), l.Perm ns.addresses ∧
        (mapKeys l).Sorted (fun a b => a < b)) ∧
      InstanceNetworkStatus.Addresses
          ⟨[("priv", [⟨NodeInternalIP, "10.0.0.5"⟩]), ("pub", [⟨NodeExternalIP, "1.2.3.4"⟩])]⟩ =
        [⟨NodeInternalIP, "10.0.0.5"⟩, ⟨NodeExternalIP, "1.2.3.4"⟩] ∧
      InstanceNetworkStatus.Addresses ⟨[]⟩ = [] := by
  refine ⟨?_, exists_sorted_perm ns.addresses hunique, by decide, by decide⟩
  intro l hl hs
  have h1 : ns.Addresses = InstanceNetworkStatus.Addresses ⟨l⟩ :=
    @Addresses_perm_eq ns.addresses l hunique hl.symm
  rw [h1]
  exact Addresses_of_sorted l hs

/-- Witness of C2 on scenario A with network `pub` met first. -/
theorem Addresses_concat_ascending_witness :
    (mapKeys statusA.addresses).Nodup ∧
      statusA.Addresses = statusA'.addresses.flatMap Prod.snd :=
  ⟨by decide,
    (Addresses_concat_ascending statusA (by decide)).1 statusA'.addresses
      (List.Perm.swap _ _ _)
      (List.pairwise_pair.2 (String.lt_iff_toList_lt.2 (by decide)))⟩

/-! ## Lemmas on NetworkStatus -/

theorem classifyLoop_addresses (logs : List LogCall) (addresses : List NodeAddress)
    (l : List networkInterface) :
    (classifyLoop logs addresses l).2 = addresses ++ l.flatMap yield := by
  induction l generalizing logs addresses with
  | nil => simp [classifyLoop]
  | cons e rest ih =>
    simp only [classifyLoop, List.flatMap_cons, yield]
    by_cases hv : e.Version = 4
    · by_cases hfl : e.Type_ = "floating"
      · simp [hv, hfl, ih]
      · by_cases hfx : e.Type_ = "fixed"
        · simp [hv, hfx, ih]
        · simp [hv, hfl, hfx, ih]
    · simp [hv, ih]

theorem normalizedList_eq_flatMap (l : List networkInterface) :
    normalizedList l = l.flatMap yield := by
  simp [normalizedList, classifyLoop_addresses]

theorem yield_eq (e : networkInterface) :
    yield e = if qualifies e then [toNodeAddress e] else [] := by
  unfold yield qualifies toNodeAddress
  by_cases hv : e.Version = 4
  · by_cases hfl : e.Type_ = "floating"
    · simp [hv, hfl]
    · by_cases hfx : e.Type_ = "fixed"
      · simp [hv, hfl, hfx]
      · simp [hv, hfl, hfx]
  · simp [hv]

theorem normalizedList_eq_filter_map (l : List networkInterface) :
    normalizedList l = (l.filter (fun e => decide (qualifies e))).map toNodeAddress := by
  rw [normalizedList_eq_flatMap]
  induction l with
  | nil => rfl
  | cons e rest ih =>
    rw [List.flatMap_cons, ih, yield_eq]
    by_cases hq : qualifies e
    · simp [hq, List.filter_cons]
    · simp [hq, List.filter_cons]

theorem networkLoop_cons_ok (instanceID : String) (logs : List LogCall)
    (acc : List (String × List NodeAddress)) (n : String) (b : Blob)
    (rest : List (String × Blob)) (l : List networkInterface)
    (h : interfaceListOf b = some l) :
    (networkLoop instanceID logs acc ((n, b) :: rest)).2 =
      (networkLoop instanceID (classifyLoop logs [] l).1
        (mapSet acc n (normalizedList l)) rest).2 := by
  unfold interfaceListOf at h
  rw [networkLoop]
  cases hM : Marshal b with
  | error err => simp [hM] at h
  | ok doc =>
    cases hU : Unmarshal doc with
    | error err => simp [hM, hU] at h
    | ok il =>
      simp only [hM, hU, Option.some.injEq] at h
      subst h
      simp only [hU, normalizedList, classifyLoop_addresses, List.nil_append]

theorem networkLoop_cons_fail (instanceID : String) (logs : List LogCall)
    (acc : List (String × List NodeAddress)) (n : String) (b : Blob)
    (rest : List (String × Blob)) (h : interfaceListOf b = none) :
    ∃ err, (networkLoop instanceID logs acc ((n, b) :: rest)).2 = (none, some err) := by
  unfold interfaceListOf at h
  rw [networkLoop]
  cases hM : Marshal b with
  | error err => exact ⟨_, rfl⟩
  | ok doc =>
    cases hU : Unmarshal doc with
    | error err =>
      simp only [hU]
      exact ⟨_, rfl⟩
    | ok il => simp [hM, hU] at h

theorem networkLoop_all_decode (instanceID : String) (logs : List LogCall)
    (acc : List (String × List NodeAddress)) (entries : List (String × Blob))
    (h : ∀ e ∈ entries, ∃ l, interfaceListOf e.2 = some l) :
    (networkLoop instanceID logs acc entries).2 = (some ⟨normalizedMap acc entries⟩, none) := by
  induction entries generalizing logs acc with
  | nil => rfl
  | cons e rest ih =>
    obtain ⟨n, b⟩ := e
    obtain ⟨l, hl⟩ := h (n, b) (List.mem_cons_self _ _)
    rw [networkLoop_cons_ok instanceID logs acc n b rest l hl,
      ih _ _ (fun e he => h e (List.mem_cons_of_mem _ he))]
    simp [normalizedMap, hl]

theorem networkLoop_some_fails (instanceID : String) (logs : List LogCall)
    (acc : List (String × List NodeAddress)) (entries : List (String × Blob))
    (h : ∃ e ∈ entries, interfaceListOf e.2 = none) :
    ∃ err, (networkLoop instanceID logs acc entries).2 = (none, some err) := by
  induction entries generalizing logs acc with
  | nil =>
    obtain ⟨e, he, _⟩ := h
    simp at he
  | cons e rest ih =>
    obtain ⟨n, b⟩ := e
    cases hb : interfaceListOf b with
    | none => exact networkLoop_cons_fail instanceID logs acc n b rest hb
    | some l =>
      rw [networkLoop_cons_ok instanceID logs acc n b rest l hb]
      apply ih
      obtain ⟨e, he, hnone⟩ := h
      rcases List.mem_cons.1 he with rfl | he'
      · simp [hb] at hnone
      · exact ⟨e, he', hnone⟩

theorem NetworkStatus_cases (is : InstanceStatus) :
    ((∀ e ∈ is.server.Addresses, ∃ l, interfaceListOf e.2 = some l) ∧
        is.NetworkStatus = (some ⟨normalizedMap [] is.server.Addresses⟩, none)) ∨
      ((∃ e ∈ is.server.Addresses, interfaceListOf e.2 = none) ∧
        ∃ err, is.NetworkStatus = (none, some err)) := by
  by_cases h : ∀ e ∈ is.server.Addresses, ∃ l, interfaceListOf e.2 = some l
  · exact Or.inl ⟨h, networkLoop_all_decode _ _ _ _ h⟩
  · right
    have h' : ∃ e ∈ is.server.Addresses, interfaceListOf e.2 = none := by
      by_contra hc
      apply h
      intro e he
      cases hb : interfaceListOf e.2 with
      | none => exact absurd ⟨e, he, hb⟩ hc
      | some l => exact ⟨l, rfl⟩
    exact ⟨h', networkLoop_some_fails _ _ _ _ h'⟩

theorem NetworkStatus_success (is : InstanceStatus) (ns : InstanceNetworkStatus)
    (hok : is.NetworkStatus = (some ns, none)) :
    (∀ e ∈ is.server.Addresses, ∃ l, interfaceListOf e.2 = some l) ∧
      ns.addresses = normalizedMap [] is.server.Addresses := by
  rcases NetworkStatus_cases is with ⟨h, heq⟩ | ⟨_, err, heq⟩
  · rw [heq] at hok
    simp only [Prod.mk.injEq, Option.some.injEq, and_true] at hok
    exact ⟨h, by rw [← hok]⟩
  · rw [heq] at hok
    simp at hok

theorem mapGet_mapSet {α : Type} (m : List (String × α)) (k k' : String) (v : α) :
    mapGet (mapSet m k v) k' = if k = k' then some v else mapGet m k' := by
  induction m with
  | nil => simp [mapSet, mapGet]
  | cons x rest ih =>
    obtain ⟨kx, vx⟩ := x
    by_cases h1 : kx = k
    · subst h1
      by_cases h2 : kx = k'
      · simp [mapSet, mapGet, h2]
      · simp [mapSet, mapGet, h2]
    · by_cases h2 : k = k'
      · subst h2
        simp [mapSet, mapGet, h1, ih]
      · by_cases h3 : kx = k'
        · subst h3
          simp [mapSet, mapGet, h1, h2]
        · simp [mapSet, mapGet, h1, h2, h3, ih]

theorem mapGet_some_mem_keys {α : Type} (m : List (String × α)) (k : String) (v : α)
    (h : mapGet m k = some v) : k ∈ mapKeys m := by
  induction m with
  | nil => simp [mapGet] at h
  | cons x rest ih =>
    obtain ⟨kx, vx⟩ := x
    by_cases h1 : kx = k
    · simp [mapKeys, h1]
    · simp only [mapGet, if_neg h1] at h
      have := ih h
      simp only [mapKeys] at this
      simp [mapKeys, this]

theorem mem_keys_mapGet_some {α : Type} (m : List (String × α)) (k : String)
    (h : k ∈ mapKeys m) : ∃ v, mapGet m k = some v := by
  induction m with
  | nil => simp [mapKeys] at h
  | cons x rest ih =>
    obtain ⟨kx, vx⟩ := x
    by_cases h1 : kx = k
    · exact ⟨vx, by simp [mapGet, h1]⟩
    · simp only [mapKeys, List.map_cons, List.mem_cons] at h
      rcases h with h | h
      · exact absurd h.symm h1
      · obtain ⟨v, hv⟩ := ih h
        exact ⟨v, by simp [mapGet, h1, hv]⟩

theorem normalizedMap_cons (acc : List (String × List NodeAddress)) (e : String × Blob)
    (rest : List (String × Blob)) :
    normalizedMap acc (e :: rest) =
      normalizedMap (mapSet acc e.1 (normalizedList ((interfaceListOf e.2).getD []))) rest := by
  simp [normalizedMap]

theorem normalizedMap_get_of_not_mem (acc : List (String × List NodeAddress))
    (entries : List (String × Blob)) (k : String) (h : k ∉ mapKeys entries) :
    mapGet (normalizedMap acc entries) k = mapGet acc k := by
  induction entries generalizing acc with
  | nil => rfl
  | cons e rest ih =>
    simp only [mapKeys, List.map_cons, List.mem_cons, not_or] at h
    rw [normalizedMap_cons, ih _ h.2, mapGet_mapSet, if_neg (fun hc => h.1 hc.symm)]

theorem normalizedMap_get_of_mem (acc : List (String × List NodeAddress))
    (entries : List (String × Blob)) (nd : (mapKeys entries).Nodup) (n : String) (b : Blob)
    (h : (n, b) ∈ entries) :
    mapGet (normalizedMap acc entries) n =
      some (normalizedList ((interfaceListOf b).getD [])) := by
  induction entries generalizing acc with
  | nil => simp at h
  | cons e rest ih =>
    simp only [mapKeys, List.map_cons, List.nodup_cons] at nd
    rw [normalizedMap_cons]
    rcases List.mem_cons.1 h with heq | hmem
    · subst heq
      rw [normalizedMap_get_of_not_mem _ _ _ nd.1, mapGet_mapSet, if_pos rfl]
    · exact ih _ nd.2 hmem

theorem normalizedMap_get_origin (acc : List (String × List NodeAddress))
    (entries : List (String × Blob)) (k : String) (list : List NodeAddress)
    (h : mapGet (normalizedMap acc entries) k = some list) :
    (∃ b, (k, b) ∈ entries ∧ list = normalizedList ((interfaceListOf b).getD [])) ∨
      mapGet acc k = some list := by
  induction entries generalizing acc with
  | nil => exact Or.inr h
  | cons e rest ih =>
    rw [normalizedMap_cons] at h
    rcases ih _ h with ⟨b, hb, hl⟩ | hacc
    · exact Or.inl ⟨b, List.mem_cons_of_mem _ hb, hl⟩
    · rw [mapGet_mapSet] at hacc
      by_cases hk : e.1 = k
      · rw [if_pos hk] at hacc
        left
        refine ⟨e.2, ?_, (Option.some.inj hacc).symm⟩
        rw [← hk]
        exact List.mem_cons_self _ _
      · rw [if_neg hk] at hacc
        exact Or.inr hacc

theorem mem_Addresses_iff (ns : InstanceNetworkStatus) (a : NodeAddress) :
    a ∈ ns.Addresses ↔ ∃ n list, mapGet ns.addresses n = some list ∧ a ∈ list := by
  rw [Addresses_eq_flatMap, List.mem_flatMap]
  constructor
  · rintro ⟨n, _, ha⟩
    cases hg : mapGet ns.addresses n with
    | none => simp [hg] at ha
    | some list =>
      rw [hg] at ha
      exact ⟨n, list, hg, ha⟩
  · rintro ⟨n, list, hg, ha⟩
    refine ⟨n, (sortStrings_perm _).mem_iff.2 (mapGet_some_mem_keys _ _ _ hg), ?_⟩
    rw [hg]
    exact ha

theorem mem_yield_iff (e : networkInterface) (a : NodeAddress) :
    a ∈ yield e ↔
      e.Version = 4 ∧ a.Address = e.Address ∧
        (e.Type_ = "floating" ∧ a.Type_ = NodeExternalIP ∨
          e.Type_ = "fixed" ∧ a.Type_ = NodeInternalIP) := by
  obtain ⟨t, addr⟩ := a
  unfold yield
  by_cases hv : e.Version = 4
  · by_cases hfl : e.Type_ = "floating"
    · have hne : ¬ e.Type_ = "fixed" := by rw [hfl]; decide
      simp [hv, hfl]
      constructor
      · rintro ⟨h1, h2⟩; exact ⟨h2, h1⟩
      · rintro ⟨h1, h2⟩; exact ⟨h2, h1⟩
    · by_cases hfx : e.Type_ = "fixed"
      · simp [hv, hfl, hfx]
        constructor
        · rintro ⟨h1, h2⟩; exact ⟨h2, h1⟩
        · rintro ⟨h1, h2⟩; exact ⟨h2, h1⟩
      · simp [hv, hfl, hfx]
  · simp [hv]

theorem mem_normalizedList_iff (l : List networkInterface) (a : NodeAddress) :
    a ∈ normalizedList l ↔
      ∃ e ∈ l, e.Version = 4 ∧ a.Address = e.Address ∧
        (e.Type_ = "floating" ∧ a.Type_ = NodeExternalIP ∨
          e.Type_ = "fixed" ∧ a.Type_ = NodeInternalIP) := by
  rw [normalizedList_eq_flatMap, List.mem_flatMap]
  constructor
  · rintro ⟨e, he, ha⟩
    exact ⟨e, he, (mem_yield_iff e a).1 ha⟩
  · rintro ⟨e, he, ha⟩
    exact ⟨e, he, (mem_yield_iff e a).2 ha⟩

theorem normalizedList_split (l₁ l₂ : List networkInterface) (e : networkInterface) :
    normalizedList (l₁ ++ e :: l₂) = normalizedList l₁ ++ yield e ++ normalizedList l₂ := by
  simp [normalizedList_eq_flatMap]

theorem firstOfType_mem (t : NodeAddressType) (list : List NodeAddress)
    (h : firstOfType t list ≠ "") : ⟨t, firstOfType t list⟩ ∈ list := by
  induction list with
  | nil => simp [firstOfType] at h
  | cons a rest ih =>
    by_cases ht : a.Type_ = t
    · obtain ⟨t', addr⟩ := a
      simp only at ht
      subst ht
      simp [firstOfType]
    · simp only [firstOfType, if_neg ht] at h ⊢
      exact List.mem_cons_of_mem _ (ih h)

theorem firstOfType_split (t : NodeAddressType) (pre post : List NodeAddress)
    (a : NodeAddress) (hpre : ∀ x ∈ pre, x.Type_ ≠ t) (ha : a.Type_ = t) :
    firstOfType t (pre ++ a :: post) = a.Address := by
  induction pre with
  | nil => simp [firstOfType, ha]
  | cons x rest ih =>
    have hx : x.Type_ ≠ t := hpre x (List.mem_cons_self _ _)
    simp only [List.cons_append, firstOfType, if_neg hx]
    exact ih (fun y hy => hpre y (List.mem_cons_of_mem _ hy))

theorem firstOfType_none (t : NodeAddressType) (list : List NodeAddress)
    (h : ∀ x ∈ list, x.Type_ ≠ t) : firstOfType t list = "" := by
  induction list with
  | nil => rfl
  | cons x rest ih =>
    have hx : x.Type_ ≠ t := h x (List.mem_cons_self _ _)
    simp only [firstOfType, if_neg hx]
    exact ih (fun y hy => h y (List.mem_cons_of_mem _ hy))

/-- Every address stored for a network by a successful `NetworkStatus` comes
from a decoded entry of that network. -/
theorem NetworkStatus_origin (is : InstanceStatus) (ns : InstanceNetworkStatus)
    (hok : is.NetworkStatus = (some ns, none)) (n : String) (list : List NodeAddress)
    (a : NodeAddress) (hg : mapGet ns.addresses n = some list) (ha : a ∈ list) :
    ∃ b l e, (n, b) ∈ is.server.Addresses ∧ interfaceListOf b = some l ∧ e ∈ l ∧
      e.Version = 4 ∧ a.Address = e.Address ∧
        (e.Type_ = "floating" ∧ a.Type_ = NodeExternalIP ∨
          e.Type_ = "fixed" ∧ a.Type_ = NodeInternalIP) := by
  obtain ⟨hdec, hmap⟩ := NetworkStatus_success is ns hok
  rw [hmap] at hg
  rcases normalizedMap_get_origin _ _ _ _ hg with ⟨b, hb, hl⟩ | hacc
  · obtain ⟨l, hbl⟩ := hdec (n, b) hb
    simp only at hbl
    rw [hbl, Option.getD_some] at hl
    rw [hl] at ha
    obtain ⟨e, he, hprop⟩ := (mem_normalizedList_iff l a).1 ha
    exact ⟨b, l, e, hb, hbl, he, hprop⟩
  · simp [mapGet] at hacc

/-- The list stored for a network by a successful `NetworkStatus` on a map with
distinct keys. -/
theorem NetworkStatus_get (is : InstanceStatus) (ns : InstanceNetworkStatus)
    (hunique : (mapKeys is.server.Addresses).Nodup)
    (hok : is.NetworkStatus = (some ns, none)) (n : String) (b : Blob)
    (hb : (n, b) ∈ is.server.Addresses) :
    ∃ l, interfaceListOf b = some l ∧ mapGet ns.addresses n = some (normalizedList l) := by
  obtain ⟨hdec, hmap⟩ := NetworkStatus_success is ns hok
  obtain ⟨l, hbl⟩ := hdec (n, b) hb
  refine ⟨l, hbl, ?_⟩
  rw [hmap, normalizedMap_get_of_mem [] _ hunique n b hb]
  simp only at hbl
  rw [hbl, Option.getD_some]

/-! ## The normalization rules -/

/-- C3: on a raw mapping (network names unique) on which `NetworkStatus`
succeeds, a decoded entry of version 4 contributes, at its place in the list of
its network, one external address when its tag is `floating`, one internal
address when its tag is `fixed`, and nothing when its tag is anything else;
every address of the normalized mapping, of `Addresses()`, and every non-empty
result of `IP` and `FloatingIP` comes from an entry tagged `floating` (kind
external) or `fixed` (kind internal). Tags that are empty or differ in letter
case are dropped. -/
theorem NetworkStatus_tag_rule (is : InstanceStatus) (ns : InstanceNetworkStatus)
    (hunique : (mapKeys is.server.Addresses).Nodup)
    (hok : is.NetworkStatus = (some ns, none)) :
    (∀ n b, (n, b) ∈ is.server.Addresses → ∃ l, interfaceListOf b = some l ∧
      ∀ l₁ e l₂, l = l₁ ++ e :: l₂ → e.Version = 4 →
        (e.Type_ = "floating" → mapGet ns.addresses n =
          some (normalizedList l₁ ++ [⟨NodeExternalIP, e.Address⟩] ++ normalizedList l₂)) ∧
        (e.Type_ = "fixed" → mapGet ns.addresses n =
          some (normalizedList l₁ ++ [⟨NodeInternalIP, e.Address⟩] ++ normalizedList l₂)) ∧
        (e.Type_ ≠ "floating" → e.Type_ ≠ "fixed" → mapGet ns.addresses n =
          some (normalizedList l₁ ++ normalizedList l₂))) ∧
    (∀ n list a, mapGet ns.addresses n = some list → a ∈ list →
      ∃ b l e, (n, b) ∈ is.server.Addresses ∧ interfaceListOf b = some l ∧ e ∈ l ∧
        a.Address = e.Address ∧
          (e.Type_ = "floating" ∧ a.Type_ = NodeExternalIP ∨
            e.Type_ = "fixed" ∧ a.Type_ = NodeInternalIP)) ∧
    (∀ a ∈ ns.Addresses,
      ∃ n b l e, (n, b) ∈ is.server.Addresses ∧ interfaceListOf b = some l ∧ e ∈ l ∧
        a.Address = e.Address ∧
          (e.Type_ = "floating" ∧ a.Type_ = NodeExternalIP ∨
            e.Type_ = "fixed" ∧ a.Type_ = NodeInternalIP)) ∧
    (∀ n, ns.IP n ≠ "" →
      ∃ b l e, (n, b) ∈ is.server.Addresses ∧ interfaceListOf b = some l ∧ e ∈ l ∧
        e.Type_ = "fixed" ∧ e.Address = ns.IP n) ∧
    (∀ n, ns.FloatingIP n ≠ "" →
      ∃ b l e, (n, b) ∈ is.server.Addresses ∧ interfaceListOf b = some l ∧ e ∈ l ∧
        e.Type_ = "floating" ∧ e.Address = ns.FloatingIP n) ∧
    scenarioTags.NetworkStatus = (some ⟨[("net", [⟨NodeInternalIP, "10.0.0.5"⟩])]⟩, none) := by
  have horigin : ∀ n list a, mapGet ns.addresses n = some list → a ∈ list →
      ∃ b l e, (n, b) ∈ is.server.Addresses ∧ interfaceListOf b = some l ∧ e ∈ l ∧
        a.Address = e.Address ∧
          (e.Type_ = "floating" ∧ a.Type_ = NodeExternalIP ∨
            e.Type_ = "fixed" ∧ a.Type_ = NodeInternalIP) := by
    intro n list a hg ha
    obtain ⟨b, l, e, hb, hl, he, _, haddr, htag⟩ := NetworkStatus_origin is ns hok n list a hg ha
    exact ⟨b, l, e, hb, hl, he, haddr, htag⟩
  refine ⟨?_, horigin, ?_, ?_, ?_, by decide⟩
  · intro n b hb
    obtain ⟨l, hl, hg⟩ := NetworkStatus_get is ns hunique hok n b hb
    refine ⟨l, hl, ?_⟩
    intro l₁ e l₂ hsplit hv
    rw [hg, hsplit, normalizedList_split]
    refine ⟨?_, ?_, ?_⟩
    · intro ht
      simp [yield, hv, ht]
    · intro ht
      have hne : ¬ e.Type_ = "floating" := by rw [ht]; decide
      simp [yield, hv, ht]
    · intro h1 h2
      simp [yield, hv, h1, h2]
  · intro a ha
    obtain ⟨n, list, hg, hmem⟩ := (mem_Addresses_iff ns a).1 ha
    exact ⟨n, horigin n list a hg hmem⟩
  · intro n hne
    unfold InstanceNetworkStatus.IP InstanceNetworkStatus.firstAddressByNetworkAndType at hne ⊢
    cases hg : mapGet ns.addresses n with
    | none => simp [hg] at hne
    | some list =>
      simp only [hg] at hne ⊢
      obtain ⟨b, l, e, hb, hl, he, haddr, htag⟩ :=
        horigin n list _ hg (firstOfType_mem NodeInternalIP list hne)
      refine ⟨b, l, e, hb, hl, he, ?_, haddr.symm⟩
      rcases htag with ⟨_, hk⟩ | ⟨ht, _⟩
      · exact absurd hk (show ¬ NodeInternalIP = NodeExternalIP by decide)
      · exact ht
  · intro n hne
    unfold InstanceNetworkStatus.FloatingIP
      InstanceNetworkStatus.firstAddressByNetworkAndType at hne ⊢
    cases hg : mapGet ns.addresses n with
    | none => simp [hg] at hne
    | some list =>
      simp only [hg] at hne ⊢
      obtain ⟨b, l, e, hb, hl, he, haddr, htag⟩ :=
        horigin n list _ hg (firstOfType_mem NodeExternalIP list hne)
      refine ⟨b, l, e, hb, hl, he, ?_, haddr.symm⟩
      rcases htag with ⟨ht, _⟩ | ⟨_, hk⟩
      · exact ht
      · exact absurd hk (show ¬ NodeExternalIP = NodeInternalIP by decide)

/-- Witness of C3 on scenario A: each listed address comes from an entry tagged
`floating` or `fixed`. -/
theorem NetworkStatus_tag_rule_witness :
    (mapKeys scenarioA.server.Addresses).Nodup ∧
      scenarioA.NetworkStatus = (some statusA, none) ∧
      ∀ a ∈ statusA.Addresses,
        ∃ n b l e, (n, b) ∈ scenarioA.server.Addresses ∧ interfaceListOf b = some l ∧ e ∈ l ∧
          a.Address = e.Address ∧
            (e.Type_ = "floating" ∧ a.Type_ = NodeExternalIP ∨
              e.Type_ = "fixed" ∧ a.Type_ = NodeInternalIP) :=
  ⟨by decide, by decide,
    (NetworkStatus_tag_rule scenarioA statusA (by decide) (by decide)).2.2.1⟩

/-- C4: on a raw mapping (network names unique) on which `NetworkStatus`
succeeds, every address of the normalized mapping, of `Addresses()`, and every
non-empty result of `IP` and `FloatingIP` comes from a decoded entry of the
same network whose version is exactly 4, and an entry of any other version
contributes nothing: the list of its network is the one built from the entries
before it and after it. Entries of version 6, of no version (decoded as 0) and
of version 4.5 leave no trace. -/
theorem NetworkStatus_version_rule (is : InstanceStatus) (ns : InstanceNetworkStatus)
    (hunique : (mapKeys is.server.Addresses).Nodup)
    (hok : is.NetworkStatus = (some ns, none)) :
    (∀ n b, (n, b) ∈ is.server.Addresses → ∃ l, interfaceListOf b = some l ∧
      ∀ l₁ e l₂, l = l₁ ++ e :: l₂ → e.Version ≠ 4 →
        mapGet ns.addresses n = some (normalizedList l₁ ++ normalizedList l₂)) ∧
    (∀ n list a, mapGet ns.addresses n = some list → a ∈ list →
      ∃ b l e, (n, b) ∈ is.server.Addresses ∧ interfaceListOf b = some l ∧ e ∈ l ∧
        e.Version = 4 ∧ e.Address = a.Address) ∧
    (∀ a ∈ ns.Addresses,
      ∃ n b l e, (n, b) ∈ is.server.Addresses ∧ interfaceListOf b = some l ∧ e ∈ l ∧
        e.Version = 4 ∧ e.Address = a.Address) ∧
    (∀ n, ns.IP n ≠ "" →
      ∃ b l e, (n, b) ∈ is.server.Addresses ∧ interfaceListOf b = some l ∧ e ∈ l ∧
        e.Version = 4 ∧ e.Address = ns.IP n) ∧
    (∀ n, ns.FloatingIP n ≠ "" →
      ∃ b l e, (n, b) ∈ is.server.Addresses ∧ interfaceListOf b = some l ∧ e ∈ l ∧
        e.Version = 4 ∧ e.Address = ns.FloatingIP n) ∧
    scenarioVersions.NetworkStatus =
      (some ⟨[("net", [⟨NodeInternalIP, "10.0.0.5"⟩])]⟩, none) := by
  have horigin : ∀ n list a, mapGet ns.addresses n = some list → a ∈ list →
      ∃ b l e, (n, b) ∈ is.server.Addresses ∧ interfaceListOf b = some l ∧ e ∈ l ∧
        e.Version = 4 ∧ e.Address = a.Address := by
    intro n list a hg ha
    obtain ⟨b, l, e, hb, hl, he, hv, haddr, _⟩ := NetworkStatus_origin is ns hok n list a hg ha
    exact ⟨b, l, e, hb, hl, he, hv, haddr.symm⟩
  refine ⟨?_, horigin, ?_, ?_, ?_, by decide⟩
  · intro n b hb
    obtain ⟨l, hl, hg⟩ := NetworkStatus_get is ns hunique hok n b hb
    refine ⟨l, hl, ?_⟩
    intro l₁ e l₂ hsplit hv
    rw [hg, hsplit, normalizedList_split]
    simp [yield, hv]
  · intro a ha
    obtain ⟨n, list, hg, hmem⟩ := (mem_Addresses_iff ns a).1 ha
    exact ⟨n, horigin n list a hg hmem⟩
  · intro n hne
    unfold InstanceNetworkStatus.IP InstanceNetworkStatus.firstAddressByNetworkAndType at hne ⊢
    cases hg : mapGet ns.addresses n with
    | none => simp [hg] at hne
    | some list =>
      simp only [hg] at hne ⊢
      exact horigin n list _ hg (firstOfType_mem NodeInternalIP list hne)
  · intro n hne
    unfold InstanceNetworkStatus.FloatingIP
      InstanceNetworkStatus.firstAddressByNetworkAndType at hne ⊢
    cases hg : mapGet ns.addresses n with
    | none => simp [hg] at hne
    | some list =>
      simp only [hg] at hne ⊢
      exact horigin n list _ hg (firstOfType_mem NodeExternalIP list hne)

/-- Witness of C4 on scenario A: each listed address comes from an entry of
version 4. -/
theorem NetworkStatus_version_rule_witness :
    (mapKeys scenarioA.server.Addresses).Nodup ∧
      scenarioA.NetworkStatus = (some statusA, none) ∧
      ∀ a ∈ statusA.Addresses,
        ∃ n b l e, (n, b) ∈ scenarioA.server.Addresses ∧ interfaceListOf b = some l ∧ e ∈ l ∧
          e.Version = 4 ∧ e.Address = a.Address :=
  ⟨by decide, by decide,
    (NetworkStatus_version_rule scenarioA statusA (by decide) (by decide)).2.2.1⟩

/-- C5: on a raw mapping (network names unique) on which `NetworkStatus`
succeeds, the list stored for a network is the decoded entry list filtered to
the entries of version 4 tagged `fixed` or `floating` and mapped to (kind,
address), in the original order; so it has as many addresses as there are
qualifying entries, and the k-th address is the image of the k-th qualifying
entry. -/
theorem NetworkStatus_filter_map (is : InstanceStatus) (ns : InstanceNetworkStatus)
    (hunique : (mapKeys is.server.Addresses).Nodup)
    (hok : is.NetworkStatus = (some ns, none)) :
    ∀ n b, (n, b) ∈ is.server.Addresses →
      ∃ l list, interfaceListOf b = some l ∧ mapGet ns.addresses n = some list ∧
        list = (l.filter (fun e => decide (qualifies e))).map toNodeAddress ∧
        list.length = l.countP (fun e => decide (qualifies e)) ∧
        ∀ k : Nat, list[k]? =
          ((l.filter (fun e => decide (qualifies e)))[k]?).map toNodeAddress := by
  intro n b hb
  obtain ⟨l, hl, hg⟩ := NetworkStatus_get is ns hunique hok n b hb
  refine ⟨l, _, hl, hg, normalizedList_eq_filter_map l, ?_, ?_⟩
  · rw [normalizedList_eq_filter_map, List.length_map, List.countP_eq_length_filter]
  · intro k
    rw [normalizedList_eq_filter_map, List.getElem?_map]

/-- Witness of C5 on scenario A, network `pub`. -/
theorem NetworkStatus_filter_map_witness :
    (mapKeys scenarioA.server.Addresses).Nodup ∧
      scenarioA.NetworkStatus = (some statusA, none) ∧
      ∃ l list, interfaceListOf (.value (.array [entryJSON "1.2.3.4" 4 "floating"])) = some l ∧
        mapGet statusA.addresses "pub" = some list ∧
        list = (l.filter (fun e => decide (qualifies e))).map toNodeAddress ∧
        list.length = l.countP (fun e => decide (qualifies e)) ∧
        ∀ k : Nat, list[k]? =
          ((l.filter (fun e => decide (qualifies e)))[k]?).map toNodeAddress :=
  ⟨by decide, by decide,
    NetworkStatus_filter_map scenarioA statusA (by decide) (by decide) "pub" _
      (List.mem_cons_self _ _)⟩

/-! ## Lookups -/

/-- C6: `IP(n)` is the address value of the first entry of network `n` whose
kind is internal and `FloatingIP(n)` that of the first entry whose kind is
external; each is the empty string when there is no network `n` or when the
network has no entry of the kind. On scenario A, `IP` of `priv` is 10.0.0.5,
`FloatingIP` of `pub` is 1.2.3.4 and `IP` of `pub` is empty. -/
theorem IP_FloatingIP_first_match (ns : InstanceNetworkStatus) (n : String) :
    (∀ pre a post, mapGet ns.addresses n = some (pre ++ a :: post) →
      (∀ x ∈ pre, x.Type_ ≠ NodeInternalIP) → a.Type_ = NodeInternalIP →
        ns.IP n = a.Address) ∧
    (∀ pre a post, mapGet ns.addresses n = some (pre ++ a :: post) →
      (∀ x ∈ pre, x.Type_ ≠ NodeExternalIP) → a.Type_ = NodeExternalIP →
        ns.FloatingIP n = a.Address) ∧
    (mapGet ns.addresses n = none → ns.IP n = "" ∧ ns.FloatingIP n = "") ∧
    (∀ list, mapGet ns.addresses n = some list →
      (∀ x ∈ list, x.Type_ ≠ NodeInternalIP) → ns.IP n = "") ∧
    (∀ list, mapGet ns.addresses n = some list →
      (∀ x ∈ list, x.Type_ ≠ NodeExternalIP) → ns.FloatingIP n = "") ∧
    (InstanceNetworkStatus.IP
        ⟨[("priv", [⟨NodeInternalIP, "10.0.0.5"⟩]), ("pub", [⟨NodeExternalIP, "1.2.3.4"⟩])]⟩
        "priv" = "10.0.0.5" ∧
      InstanceNetworkStatus.FloatingIP
        ⟨[("priv", [⟨NodeInternalIP, "10.0.0.5"⟩]), ("pub", [⟨NodeExternalIP, "1.2.3.4"⟩])]⟩
        "pub" = "1.2.3.4" ∧
      InstanceNetworkStatus.IP
        ⟨[("priv", [⟨NodeInternalIP, "10.0.0.5"⟩]), ("pub", [⟨NodeExternalIP, "1.2.3.4"⟩])]⟩
        "pub" = "") := by
  refine ⟨?_, ?_, ?_, ?_, ?_, by decide⟩
  · intro pre a post hg hpre ha
    simp only [InstanceNetworkStatus.IP, InstanceNetworkStatus.firstAddressByNetworkAndType, hg]
    exact firstOfType_split _ pre post a hpre ha
  · intro pre a post hg hpre ha
    simp only [InstanceNetworkStatus.FloatingIP,
      InstanceNetworkStatus.firstAddressByNetworkAndType, hg]
    exact firstOfType_split _ pre post a hpre ha
  · intro hg
    simp [InstanceNetworkStatus.IP, InstanceNetworkStatus.FloatingIP,
      InstanceNetworkStatus.firstAddressByNetworkAndType, hg]
  · intro list hg hall
    simp only [InstanceNetworkStatus.IP, InstanceNetworkStatus.firstAddressByNetworkAndType, hg]
    exact firstOfType_none _ list hall
  · intro list hg hall
    simp only [InstanceNetworkStatus.FloatingIP,
      InstanceNetworkStatus.firstAddressByNetworkAndType, hg]
    exact firstOfType_none _ list hall

/-! ## Decoding failures -/

theorem equalFold_iff (key name : String) :
    equalFold key name = true ↔ key.data.map foldRune = name.data.map foldRune := by
  simp [equalFold]

theorem equalFold_addr_excl (key : String) (h : equalFold key "addr" = true) :
    equalFold key "version" = false ∧ equalFold key "OS-EXT-IPS:type" = false := by
  rw [equalFold_iff] at h
  constructor
  · cases h2 : equalFold key "version" with
    | false => rfl
    | true =>
      rw [equalFold_iff] at h2
      exact absurd (h.symm.trans h2) (by decide)
  · cases h2 : equalFold key "OS-EXT-IPS:type" with
    | false => rfl
    | true =>
      rw [equalFold_iff] at h2
      exact absurd (h.symm.trans h2) (by decide)

theorem equalFold_version_excl (key : String) (h : equalFold key "version" = true) :
    equalFold key "OS-EXT-IPS:type" = false := by
  rw [equalFold_iff] at h
  cases h2 : equalFold key "OS-EXT-IPS:type" with
  | false => rfl
  | true =>
    rw [equalFold_iff] at h2
    exact absurd (h.symm.trans h2) (by decide)

theorem decodeMember_error_of_wrong (ni : networkInterface) (key : String) (v : JSONValue)
    (h : wrongScalar (key, v) = true) : ∃ err, decodeMember ni key v = .error err := by
  unfold wrongScalar at h
  unfold decodeMember
  by_cases h1 : equalFold key "addr" = true
  · obtain ⟨h2, h3⟩ := equalFold_addr_excl key h1
    cases v <;> simp_all [stringOrNull, numberOrNull]
  · by_cases h2 : equalFold key "version" = true
    · have h3 := equalFold_version_excl key h2
      cases v <;> simp_all [stringOrNull, numberOrNull]
    · by_cases h3 : equalFold key "OS-EXT-IPS:type" = true
      · cases v <;> simp_all [stringOrNull, numberOrNull]
      · simp_all

theorem decodeMember_ok_of_not_wrong (ni : networkInterface) (key : String) (v : JSONValue)
    (h : wrongScalar (key, v) = false) : ∃ ni', decodeMember ni key v = .ok ni' := by
  unfold wrongScalar at h
  unfold decodeMember
  by_cases h1 : equalFold key "addr" = true
  · cases v <;> simp_all [stringOrNull, numberOrNull]
  · by_cases h2 : equalFold key "version" = true
    · cases v <;> simp_all [stringOrNull, numberOrNull]
    · by_cases h3 : equalFold key "OS-EXT-IPS:type" = true
      · cases v <;> simp_all [stringOrNull, numberOrNull]
      · simp_all

theorem decodeMembers_error_iff (ni : networkInterface) (members : List (String × JSONValue)) :
    (members.any wrongScalar = true → ∃ err, decodeMembers ni members = .error err) ∧
      (members.any wrongScalar = false → ∃ ni', decodeMembers ni members = .ok ni') := by
  induction members generalizing ni with
  | nil => simp [decodeMembers]
  | cons m rest ih =>
    obtain ⟨key, v⟩ := m
    cases hw : wrongScalar (key, v) with
    | true =>
      obtain ⟨err, herr⟩ := decodeMember_error_of_wrong ni key v hw
      simp [decodeMembers, herr, hw]
    | false =>
      obtain ⟨ni', hni⟩ := decodeMember_ok_of_not_wrong ni key v hw
      simp only [decodeMembers, hni, List.any_cons, hw, Bool.false_or]
      exact ih ni'

theorem decodeElem_error_iff (e : JSONValue) :
    (wrongElement e = true → ∃ err, decodeElem e = .error err) ∧
      (wrongElement e = false → ∃ ni, decodeElem e = .ok ni) := by
  cases e with
  | object members =>
    simp only [wrongElement, decodeElem]
    exact decodeMembers_error_iff _ members
  | null => simp [wrongElement, decodeElem]
  | bool b => simp [wrongElement, decodeElem]
  | number x => simp [wrongElement, decodeElem]
  | string x => simp [wrongElement, decodeElem]
  | array x => simp [wrongElement, decodeElem]

theorem decodeElems_error_iff (elems : List JSONValue) :
    (elems.any wrongElement = true → ∃ err, decodeElems elems = .error err) ∧
      (elems.any wrongElement = false → ∃ l, decodeElems elems = .ok l) := by
  induction elems with
  | nil => simp [decodeElems]
  | cons e rest ih =>
    cases hw : wrongElement e with
    | true =>
      obtain ⟨err, herr⟩ := (decodeElem_error_iff e).1 hw
      simp [decodeElems, herr, hw]
    | false =>
      obtain ⟨ni, hni⟩ := (decodeElem_error_iff e).2 hw
      simp only [decodeElems, hni, List.any_cons, hw, Bool.false_or]
      constructor
      · intro h
        obtain ⟨err, herr⟩ := ih.1 h
        simp [herr]
      · intro h
        obtain ⟨l, hl⟩ := ih.2 h
        simp [hl]

theorem Unmarshal_error_iff (doc : JSONValue) :
    (wrongDocument doc = true → ∃ err, Unmarshal doc = .error err) ∧
      (wrongDocument doc = false → ∃ l, Unmarshal doc = .ok l) := by
  cases doc with
  | array elems =>
    simp only [wrongDocument, Unmarshal]
    exact decodeElems_error_iff elems
  | null => simp [wrongDocument, Unmarshal]
  | bool b => simp [wrongDocument, Unmarshal]
  | number x => simp [wrongDocument, Unmarshal]
  | string x => simp [wrongDocument, Unmarshal]
  | object x => simp [wrongDocument, Unmarshal]

theorem interfaceListOf_eq_none_iff (b : Blob) :
    interfaceListOf b = none ↔ wrongShape b = true := by
  cases b with
  | unsupported what => simp [interfaceListOf, Marshal, wrongShape]
  | value v =>
    simp only [interfaceListOf, Marshal, wrongShape]
    cases hw : wrongDocument v with
    | true =>
      obtain ⟨err, herr⟩ := (Unmarshal_error_iff v).1 hw
      simp [herr]
    | false =>
      obtain ⟨l, hl⟩ := (Unmarshal_error_iff v).2 hw
      simp [hl]

theorem APIInstance_of_ok (is : InstanceStatus) (c : OpenStackCluster)
    (ns : InstanceNetworkStatus) (h : is.NetworkStatus = (some ns, none)) :
    is.APIInstance c =
      (some ⟨is.server.ID, is.server.Name, is.server.KeyName, is.server.Status,
        ns.IP c.StatusNetworkName, ns.FloatingIP c.StatusNetworkName⟩, none) := by
  simp [InstanceStatus.APIInstance, h, InstanceStatus.ID, InstanceStatus.Name,
    InstanceStatus.SSHKeyName, InstanceStatus.State]

theorem APIInstance_of_error (is : InstanceStatus) (c : OpenStackCluster) (err : GoError)
    (h : is.NetworkStatus = (none, some err)) : is.APIInstance c = (none, some err) := by
  simp [InstanceStatus.APIInstance, h]

/-! ## Failure and projection -/

/-- C7: when the blob of at least one network is rejected by the decoding (it
is not a list, or an element is not an object, or a field has the wrong type),
`NetworkStatus` returns an error and no status, whatever the other networks
hold and in whatever order the networks are met, and `APIInstance` returns no
instance together with that same error. -/
theorem NetworkStatus_malformed_fails (is : InstanceStatus) (c : OpenStackCluster)
    (hbad : ∃ e ∈ is.server.Addresses, wrongShape e.2 = true) :
    (∃ err, is.NetworkStatus = (none, some err) ∧ is.APIInstance c = (none, some err)) ∧
    (∀ entries : List (String × Blob), entries.Perm is.server.Addresses →
      ∃ err,
        InstanceStatus.NetworkStatus ⟨{ is.server with Addresses := entries }, is.logger⟩ =
          (none, some err) ∧
        InstanceStatus.APIInstance ⟨{ is.server with Addresses := entries }, is.logger⟩ c =
          (none, some err)) := by
  have key : ∀ is' : InstanceStatus, (∃ e ∈ is'.server.Addresses, wrongShape e.2 = true) →
      ∃ err, is'.NetworkStatus = (none, some err) ∧ is'.APIInstance c = (none, some err) := by
    intro is' hbad'
    obtain ⟨e, he, hw⟩ := hbad'
    have hnone : ∃ e ∈ is'.server.Addresses, interfaceListOf e.2 = none :=
      ⟨e, he, (interfaceListOf_eq_none_iff e.2).2 hw⟩
    obtain ⟨err, herr⟩ := networkLoop_some_fails is'.ID [] [] _ hnone
    exact ⟨err, herr, APIInstance_of_error is' c err herr⟩
  refine ⟨key is hbad, ?_⟩
  intro entries hperm
  obtain ⟨e, he, hw⟩ := hbad
  exact key ⟨{ is.server with Addresses := entries }, is.logger⟩ ⟨e, hperm.mem_iff.2 he, hw⟩

/-- Witness of C7 on scenario D, where the cluster network `priv` is valid. -/
theorem NetworkStatus_malformed_fails_witness :
    (∃ e ∈ scenarioD.server.Addresses, wrongShape e.2 = true) ∧
      ∃ err, scenarioD.NetworkStatus = (none, some err) ∧
        scenarioD.APIInstance ⟨"priv"⟩ = (none, some err) :=
  ⟨⟨("bad", .value (.string "oops")), List.mem_cons_of_mem _ (List.mem_cons_self _ _), rfl⟩,
    (NetworkStatus_malformed_fails scenarioD ⟨"priv"⟩
      ⟨("bad", .value (.string "oops")), List.mem_cons_of_mem _ (List.mem_cons_self _ _),
        rfl⟩).1⟩

/-- C8: `APIInstance` returns either a summary with its six fields set from
the server record and from the lookups of a successful normalization, and no
error, or no summary and the error of the failed normalization; never both,
never neither. -/
theorem APIInstance_atomic (is : InstanceStatus) (c : OpenStackCluster) :
    (∃ ns, is.NetworkStatus = (some ns, none) ∧
      is.APIInstance c =
        (some ⟨is.server.ID, is.server.Name, is.server.KeyName, is.server.Status,
          ns.IP c.StatusNetworkName, ns.FloatingIP c.StatusNetworkName⟩, none)) ∨
    (∃ err, is.NetworkStatus = (none, some err) ∧ is.APIInstance c = (none, some err)) := by
  rcases NetworkStatus_cases is with ⟨_, heq⟩ | ⟨_, err, heq⟩
  · exact Or.inl ⟨_, heq, APIInstance_of_ok is c _ heq⟩
  · exact Or.inr ⟨err, heq, APIInstance_of_error is c err heq⟩

/-- C9: when the normalization succeeds with `ns`, `APIInstance` returns the
summary whose ID, name, key name and state are those of the server record and
whose IP and floating IP are `ns.IP` and `ns.FloatingIP` of the cluster
network; each of the two is empty or the address of an entry of the cluster
network, and neither changes with the lists of the other networks. -/
theorem APIInstance_fields (is : InstanceStatus) (ns : InstanceNetworkStatus)
    (c : OpenStackCluster) (hok : is.NetworkStatus = (some ns, none)) :
    is.APIInstance c =
      (some ⟨is.server.ID, is.server.Name, is.server.KeyName, is.server.Status,
        ns.IP c.StatusNetworkName, ns.FloatingIP c.StatusNetworkName⟩, none) ∧
    (ns.IP c.StatusNetworkName = "" ∨
      ∃ list, mapGet ns.addresses c.StatusNetworkName = some list ∧
        ⟨NodeInternalIP, ns.IP c.StatusNetworkName⟩ ∈ list) ∧
    (ns.FloatingIP c.StatusNetworkName = "" ∨
      ∃ list, mapGet ns.addresses c.StatusNetworkName = some list ∧
        ⟨NodeExternalIP, ns.FloatingIP c.StatusNetworkName⟩ ∈ list) ∧
    (∀ ns' : InstanceNetworkStatus,
      mapGet ns'.addresses c.StatusNetworkName = mapGet ns.addresses c.StatusNetworkName →
        ns'.IP c.StatusNetworkName = ns.IP c.StatusNetworkName ∧
          ns'.FloatingIP c.StatusNetworkName = ns.FloatingIP c.StatusNetworkName) := by
  refine ⟨APIInstance_of_ok is c ns hok, ?_, ?_, ?_⟩
  · by_cases h : ns.IP c.StatusNetworkName = ""
    · exact Or.inl h
    · right
      unfold InstanceNetworkStatus.IP InstanceNetworkStatus.firstAddressByNetworkAndType at h ⊢
      cases hg : mapGet ns.addresses c.StatusNetworkName with
      | none => simp [hg] at h
      | some list =>
        simp only [hg] at h ⊢
        exact ⟨list, rfl, firstOfType_mem _ list h⟩
  · by_cases h : ns.FloatingIP c.StatusNetworkName = ""
    · exact Or.inl h
    · right
      unfold InstanceNetworkStatus.FloatingIP
        InstanceNetworkStatus.firstAddressByNetworkAndType at h ⊢
      cases hg : mapGet ns.addresses c.StatusNetworkName with
      | none => simp [hg] at h
      | some list =>
        simp only [hg] at h ⊢
        exact ⟨list, rfl, firstOfType_mem _ list h⟩
  · intro ns' hsame
    simp [InstanceNetworkStatus.IP, InstanceNetworkStatus.FloatingIP,
      InstanceNetworkStatus.firstAddressByNetworkAndType, hsame]

/-- Witness of C9 on scenario A with cluster network `priv`. -/
theorem APIInstance_fields_witness :
    scenarioA.NetworkStatus = (some statusA, none) ∧
      scenarioA.APIInstance ⟨"priv"⟩ =
        (some ⟨"id-1", "node-1", "key-1", "ACTIVE", "10.0.0.5", ""⟩, none) :=
  ⟨by decide, (APIInstance_fields scenarioA statusA ⟨"priv"⟩ (by decide)).1⟩

/-- C10, as stated, fails: a blob whose entry lacks the IP version, the address
or the tag is decoded without error (the absent field is its zero value), and
so are a blob that is null rather than a list and a list element that is null
rather than an object. -/
theorem missing_field_is_no_error :
    (serverWith (.array [entryNoVersionJSON "10.0.0.1" "fixed"])).NetworkStatus =
        (some ⟨[("net", [])]⟩, none) ∧
      (serverWith (.array [.object [("OS-EXT-IPS:type", .string "fixed"),
          ("version", .number 4)]])).NetworkStatus =
        (some ⟨[("net", [⟨NodeInternalIP, ""⟩])]⟩, none) ∧
      (serverWith (.array [.object [("addr", .string "10.0.0.1"),
          ("version", .number 4)]])).NetworkStatus =
        (some ⟨[("net", [])]⟩, none) ∧
      (serverWith .null).NetworkStatus = (some ⟨[("net", [])]⟩, none) ∧
      (serverWith (.array [.null])).NetworkStatus = (some ⟨[("net", [])]⟩, none) := by
  decide

/-- C10, amended: a blob of the wrong structural type (it cannot be marshalled,
or its document is neither a list nor null, or a list element is neither an
object nor null, or a member named as one of the three fields holds a value
that is neither null nor of the type of the field) makes `NetworkStatus`
return an error and no status; these are exactly the blobs the decoding
rejects, and an entry with no members decodes to the zero value. -/
theorem NetworkStatus_wrong_shape_fails (is : InstanceStatus) (n : String) (b : Blob)
    (hb : (n, b) ∈ is.server.Addresses) (hwrong : wrongShape b = true) :
    (∃ err, is.NetworkStatus = (none, some err)) ∧
    (∀ b' : Blob, wrongShape b' = false ↔ ∃ l, interfaceListOf b' = some l) ∧
    interfaceListOf (.value (.array [.object []])) = some [networkInterface.zero] := by
  refine ⟨?_, ?_, by decide⟩
  · exact networkLoop_some_fails is.ID [] [] _
      ⟨(n, b), hb, (interfaceListOf_eq_none_iff b).2 hwrong⟩
  · intro b'
    constructor
    · intro h
      cases hl : interfaceListOf b' with
      | none =>
        rw [(interfaceListOf_eq_none_iff b').1 hl] at h
        exact absurd h (by decide)
      | some l => exact ⟨l, rfl⟩
    · rintro ⟨l, hl⟩
      cases hw : wrongShape b' with
      | false => rfl
      | true =>
        rw [(interfaceListOf_eq_none_iff b').2 hw] at hl
        exact absurd hl (by simp)

/-- Witness of the amended C10 on scenario D, whose network `bad` holds a
string. -/
theorem NetworkStatus_wrong_shape_fails_witness :
    (("bad", Blob.value (.string "oops")) ∈ scenarioD.server.Addresses) ∧
      wrongShape (.value (.string "oops")) = true ∧
      ∃ err, scenarioD.NetworkStatus = (none, some err) :=
  ⟨List.mem_cons_of_mem _ (List.mem_cons_self _ _), rfl,
    (NetworkStatus_wrong_shape_fails scenarioD "bad" (.value (.string "oops"))
      (List.mem_cons_of_mem _ (List.mem_cons_self _ _)) rfl).1⟩

/-! ## The run of NetworkStatus without the logger -/

theorem classifyLoop_logs (logs : List LogCall) (addresses : List NodeAddress)
    (l : List networkInterface) :
    (classifyLoop logs addresses l).1 = logs ++ l.flatMap notice := by
  induction l generalizing logs addresses with
  | nil => simp [classifyLoop]
  | cons e rest ih =>
    simp only [classifyLoop, List.flatMap_cons, notice]
    by_cases hv : e.Version = 4
    · by_cases hfl : e.Type_ = "floating"
      · simp [hv, hfl, ih]
      · by_cases hfx : e.Type_ = "fixed"
        · simp [hv, hfl, hfx, ih]
        · simp [hv, hfl, hfx, ih]
    · simp [hv, ih]

theorem networkLoop_eq (instanceID : String) (logs : List LogCall)
    (acc : List (String × List NodeAddress)) (entries : List (String × Blob)) :
    networkLoop instanceID logs acc entries =
      (logs ++ loopLogs entries, loopResult instanceID acc entries) := by
  induction entries generalizing logs acc with
  | nil => simp [networkLoop, loopLogs, loopResult]
  | cons e rest ih =>
    obtain ⟨n, b⟩ := e
    rw [networkLoop]
    simp only [loopLogs, loopResult, blobOutcome, interfaceListOf]
    cases hM : Marshal b with
    | error err => simp
    | ok doc =>
      simp only []
      cases hU : Unmarshal doc with
      | error err => simp
      | ok il =>
        simp only [ih, classifyLoop_logs, classifyLoop_addresses, normalizedList,
          List.nil_append, List.append_assoc]

theorem NetworkStatus_eq_loopResult (is : InstanceStatus) :
    is.NetworkStatus = loopResult is.server.ID [] is.server.Addresses := by
  simp [InstanceStatus.NetworkStatus, InstanceStatus.NetworkStatusTrace, networkLoop_eq,
    InstanceStatus.ID]

theorem NetworkStatusLogs_eq_loopLogs (is : InstanceStatus) :
    is.NetworkStatusLogs = loopLogs is.server.Addresses := by
  simp [InstanceStatus.NetworkStatusLogs, InstanceStatus.NetworkStatusTrace, networkLoop_eq]

theorem blobOutcome_ok_iff (instanceID : String) (b : Blob) (list : List NodeAddress) :
    blobOutcome instanceID b = .ok list ↔
      ∃ l, interfaceListOf b = some l ∧ list = normalizedList l := by
  unfold blobOutcome interfaceListOf
  cases hM : Marshal b with
  | error err => simp
  | ok doc =>
    simp only []
    cases hU : Unmarshal doc with
    | error err => simp
    | ok il =>
      simp only [Except.ok.injEq, Option.some.injEq]
      constructor
      · intro h
        exact ⟨il, rfl, h.symm⟩
      · rintro ⟨l, hl, hlist⟩
        rw [hlist, ← hl]

theorem blobOutcome_of_decoded (instanceID : String) (b : Blob) (l : List networkInterface)
    (h : interfaceListOf b = some l) : blobOutcome instanceID b = .ok (normalizedList l) :=
  (blobOutcome_ok_iff instanceID b _).2 ⟨l, h, rfl⟩

theorem loopResult_shape (instanceID : String) (acc : List (String × List NodeAddress))
    (entries : List (String × Blob)) :
    (∃ ns, loopResult instanceID acc entries = (some ns, none)) ∨
      (∃ err, loopResult instanceID acc entries = (none, some err)) := by
  induction entries generalizing acc with
  | nil => exact Or.inl ⟨_, rfl⟩
  | cons e rest ih =>
    obtain ⟨n, b⟩ := e
    simp only [loopResult]
    cases hb : blobOutcome instanceID b with
    | error err => exact Or.inr ⟨err, rfl⟩
    | ok list => exact ih _

theorem loopResult_error_origin (instanceID : String) (acc : List (String × List NodeAddress))
    (entries : List (String × Blob)) (err : GoError)
    (h : (loopResult instanceID acc entries).2 = some err) :
    ∃ e ∈ entries, blobOutcome instanceID e.2 = .error err := by
  induction entries generalizing acc with
  | nil => simp [loopResult] at h
  | cons e rest ih =>
    obtain ⟨n, b⟩ := e
    simp only [loopResult] at h
    cases hb : blobOutcome instanceID b with
    | error err' =>
      simp only [hb, Option.some.injEq] at h
      subst h
      exact ⟨(n, b), List.mem_cons_self _ _, hb⟩
    | ok list =>
      simp only [hb] at h
      obtain ⟨e, he, hout⟩ := ih _ h
      exact ⟨e, List.mem_cons_of_mem _ he, hout⟩

theorem loopResult_error_of_blobs (instanceID : String)
    (entries entries' : List (String × Blob))
    (h : entries.map Prod.snd = entries'.map Prod.snd)
    (acc acc' : List (String × List NodeAddress)) :
    (loopResult instanceID acc entries).2 = (loopResult instanceID acc' entries').2 := by
  induction entries generalizing entries' acc acc' with
  | nil =>
    cases entries' with
    | nil => rfl
    | cons e' rest' => simp at h
  | cons e rest ih =>
    cases entries' with
    | nil => simp at h
    | cons e' rest' =>
      obtain ⟨n, b⟩ := e
      obtain ⟨n', b'⟩ := e'
      simp only [List.map_cons, List.cons.injEq] at h
      obtain ⟨hb, hrest⟩ := h
      subst hb
      simp only [loopResult]
      cases hout : blobOutcome instanceID b with
      | error err => rfl
      | ok list => exact ih rest' hrest _ _

/-! ## The error of NetworkStatus -/

/-- C11, as stated, fails: two records that differ only in the name of the
network whose blob does not decode (`bad` and `worse`) give the same error,
which holds the instance ID and the cause reported by the decoding and no
network name. -/
theorem error_does_not_name_network :
    scenarioD.NetworkStatus = scenarioDRenamed.NetworkStatus ∧
      scenarioD.NetworkStatus =
        (none, some (.unmarshalling "id-1" ⟨"string", "[]compute.networkInterface", ""⟩)) := by
  decide

/-- C11, amended: when `NetworkStatus` fails, its error identifies the
instance: it holds the ID of the server record and the cause that
`json.Marshal` or `json.Unmarshal` reports for the blob of one of the networks;
it does not depend on the network names, so every record with the same ID and
the same blobs in the same order, under whatever names, fails with the same
error. -/
theorem NetworkStatus_error_names_instance (is : InstanceStatus) (err : GoError)
    (hfail : is.NetworkStatus = (none, some err)) :
    (∃ n b, (n, b) ∈ is.server.Addresses ∧
      ((∃ cause, Marshal b = .error cause ∧ err = .marshalling is.server.ID cause) ∨
        (∃ doc cause, Marshal b = .ok doc ∧ Unmarshal doc = .error cause ∧
          err = .unmarshalling is.server.ID cause))) ∧
    (∀ is' : InstanceStatus, is'.server.ID = is.server.ID →
      is'.server.Addresses.map Prod.snd = is.server.Addresses.map Prod.snd →
        is'.NetworkStatus = (none, some err)) := by
  rw [NetworkStatus_eq_loopResult] at hfail
  constructor
  · obtain ⟨e, he, hout⟩ :=
      loopResult_error_origin is.server.ID [] is.server.Addresses err (by rw [hfail])
    obtain ⟨n, b⟩ := e
    refine ⟨n, b, he, ?_⟩
    simp only [blobOutcome] at hout
    cases hM : Marshal b with
    | error cause =>
      simp only [hM, Except.error.injEq] at hout
      exact Or.inl ⟨cause, rfl, hout.symm⟩
    | ok doc =>
      simp only [hM] at hout
      cases hU : Unmarshal doc with
      | error cause =>
        simp only [hU, Except.error.injEq] at hout
        exact Or.inr ⟨doc, cause, rfl, hU, hout.symm⟩
      | ok il => simp [hU] at hout
  · intro is' hid hblobs
    rw [NetworkStatus_eq_loopResult, hid]
    have h2 : (loopResult is.server.ID [] is'.server.Addresses).2 = some err := by
      rw [loopResult_error_of_blobs is.server.ID _ _ hblobs [] [], hfail]
    rcases loopResult_shape is.server.ID [] is'.server.Addresses with ⟨ns, hns⟩ | ⟨err', herr⟩
    · rw [hns] at h2
      simp at h2
    · rw [herr] at h2 ⊢
      simp only [Option.some.injEq] at h2
      rw [h2]

/-- Witness of the amended C11 on scenario D and its renamed copy. -/
theorem NetworkStatus_error_names_instance_witness :
    scenarioD.NetworkStatus =
        (none, some (.unmarshalling "id-1" ⟨"string", "[]compute.networkInterface", ""⟩)) ∧
      ∀ is' : InstanceStatus, is'.server.ID = scenarioD.server.ID →
        is'.server.Addresses.map Prod.snd = scenarioD.server.Addresses.map Prod.snd →
          is'.NetworkStatus =
            (none, some (.unmarshalling "id-1" ⟨"string", "[]compute.networkInterface", ""⟩)) :=
  ⟨by decide,
    (NetworkStatus_error_names_instance scenarioD
      (.unmarshalling "id-1" ⟨"string", "[]compute.networkInterface", ""⟩) (by decide)).2⟩

/-! ## Decoding of well-formed entries -/

theorem decodeMember_addr (ni : networkInterface) (a : String) :
    decodeMember ni "addr" (.string a) = .ok { ni with Address := a } := by
  have h : equalFold "addr" "addr" = true := by decide
  unfold decodeMember
  simp [h]

theorem decodeMember_version (ni : networkInterface) (x : ℚ) :
    decodeMember ni "version" (.number x) = .ok { ni with Version := x } := by
  have h1 : equalFold "version" "addr" = false := by decide
  have h2 : equalFold "version" "version" = true := by decide
  unfold decodeMember
  simp [h1, h2]

theorem decodeMember_type (ni : networkInterface) (t : String) :
    decodeMember ni "OS-EXT-IPS:type" (.string t) = .ok { ni with Type_ := t } := by
  have h1 : equalFold "OS-EXT-IPS:type" "addr" = false := by decide
  have h2 : equalFold "OS-EXT-IPS:type" "version" = false := by decide
  have h3 : equalFold "OS-EXT-IPS:type" "OS-EXT-IPS:type" = true := by decide
  unfold decodeMember
  simp [h1, h2, h3]

theorem decodeMember_other (ni : networkInterface) (key : String) (v : JSONValue)
    (h1 : equalFold key "addr" = false) (h2 : equalFold key "version" = false)
    (h3 : equalFold key "OS-EXT-IPS:type" = false) : decodeMember ni key v = .ok ni := by
  unfold decodeMember
  simp [h1, h2, h3]

theorem decodeMembers_of_fields (e : networkInterface) (members : List (String × JSONValue))
    (hall : ∀ m ∈ members,
      m = ("addr", JSONValue.string e.Address) ∨
      m = ("version", JSONValue.number e.Version) ∨
      m = ("OS-EXT-IPS:type", JSONValue.string e.Type_) ∨
      (equalFold m.1 "addr" = false ∧ equalFold m.1 "version" = false ∧
        equalFold m.1 "OS-EXT-IPS:type" = false))
    (ni : networkInterface) :
    ∃ ni', decodeMembers ni members = .ok ni' ∧
      ((("addr", JSONValue.string e.Address) ∈ members ∨ ni.Address = e.Address) →
        ni'.Address = e.Address) ∧
      ((("version", JSONValue.number e.Version) ∈ members ∨ ni.Version = e.Version) →
        ni'.Version = e.Version) ∧
      ((("OS-EXT-IPS:type", JSONValue.string e.Type_) ∈ members ∨ ni.Type_ = e.Type_) →
        ni'.Type_ = e.Type_) := by
  induction members generalizing ni with
  | nil =>
    refine ⟨ni, rfl, ?_, ?_, ?_⟩ <;> intro h <;> rcases h with h | h
    all_goals first | exact h | simp at h
  | cons m rest ih =>
    have hrest := fun m' hm' => hall m' (List.mem_cons_of_mem _ hm')
    rcases hall m (List.mem_cons_self _ _) with hm | hm | hm | ⟨h1, h2, h3⟩
    · subst hm
      obtain ⟨ni', hdec, hA, hV, hT⟩ := ih hrest { ni with Address := e.Address }
      refine ⟨ni', ?_, ?_, ?_, ?_⟩
      · simp only [decodeMembers, decodeMember_addr, hdec]
      · intro _
        exact hA (Or.inr rfl)
      · intro h
        apply hV
        rcases h with h | h
        · rcases List.mem_cons.1 h with h | h
          · simp at h
          · exact Or.inl h
        · exact Or.inr h
      · intro h
        apply hT
        rcases h with h | h
        · rcases List.mem_cons.1 h with h | h
          · simp at h
          · exact Or.inl h
        · exact Or.inr h
    · subst hm
      obtain ⟨ni', hdec, hA, hV, hT⟩ := ih hrest { ni with Version := e.Version }
      refine ⟨ni', ?_, ?_, ?_, ?_⟩
      · simp only [decodeMembers, decodeMember_version, hdec]
      · intro h
        apply hA
        rcases h with h | h
        · rcases List.mem_cons.1 h with h | h
          · simp at h
          · exact Or.inl h
        · exact Or.inr h
      · intro _
        exact hV (Or.inr rfl)
      · intro h
        apply hT
        rcases h with h | h
        · rcases List.mem_cons.1 h with h | h
          · simp at h
          · exact Or.inl h
        · exact Or.inr h
    · subst hm
      obtain ⟨ni', hdec, hA, hV, hT⟩ := ih hrest { ni with Type_ := e.Type_ }
      refine ⟨ni', ?_, ?_, ?_, ?_⟩
      · simp only [decodeMembers, decodeMember_type, hdec]
      · intro h
        apply hA
        rcases h with h | h
        · rcases List.mem_cons.1 h with h | h
          · simp at h
          · exact Or.inl h
        · exact Or.inr h
      · intro h
        apply hV
        rcases h with h | h
        · rcases List.mem_cons.1 h with h | h
          · simp at h
          · exact Or.inl h
        · exact Or.inr h
      · intro _
        exact hT (Or.inr rfl)
    · obtain ⟨key, v⟩ := m
      simp only at h1 h2 h3
      have hA0 : equalFold "addr" "addr" = true := by decide
      have hV0 : equalFold "version" "version" = true := by decide
      have hT0 : equalFold "OS-EXT-IPS:type" "OS-EXT-IPS:type" = true := by decide
      obtain ⟨ni', hdec, hA, hV, hT⟩ := ih hrest ni
      refine ⟨ni', ?_, ?_, ?_, ?_⟩
      · simp only [decodeMembers, decodeMember_other ni key v h1 h2 h3, hdec]
      · intro h
        apply hA
        rcases h with h | h
        · rcases List.mem_cons.1 h with h | h
          · have hk : key = "addr" := (Prod.mk.inj h).1.symm
            rw [hk, hA0] at h1
            exact absurd h1 (by decide)
          · exact Or.inl h
        · exact Or.inr h
      · intro h
        apply hV
        rcases h with h | h
        · rcases List.mem_cons.1 h with h | h
          · have hk : key = "version" := (Prod.mk.inj h).1.symm
            rw [hk, hV0] at h2
            exact absurd h2 (by decide)
          · exact Or.inl h
        · exact Or.inr h
      · intro h
        apply hT
        rcases h with h | h
        · rcases List.mem_cons.1 h with h | h
          · have hk : key = "OS-EXT-IPS:type" := (Prod.mk.inj h).1.symm
            rw [hk, hT0] at h3
            exact absurd h3 (by decide)
          · exact Or.inl h
        · exact Or.inr h

theorem decodeElem_of_wellFormed (v : JSONValue) (e : networkInterface)
    (h : wellFormedEntry v e) : decodeElem v = .ok e := by
  obtain ⟨members, hv, hA, hV, hT, hall⟩ := h
  subst hv
  obtain ⟨ni', hdec, hA', hV', hT'⟩ :=
    decodeMembers_of_fields e members hall networkInterface.zero
  have h1 := hA' (Or.inl hA)
  have h2 := hV' (Or.inl hV)
  have h3 := hT' (Or.inl hT)
  simp only [decodeElem, hdec]
  obtain ⟨a, x, t⟩ := ni'
  obtain ⟨a', x', t'⟩ := e
  simp only at h1 h2 h3
  rw [h1, h2, h3]

theorem decodeElems_of_wellFormed (elems : List JSONValue) (es : List networkInterface)
    (h : List.Forall₂ wellFormedEntry elems es) : decodeElems elems = .ok es := by
  induction h with
  | nil => rfl
  | cons hhead _ ih => simp only [decodeElems, decodeElem_of_wellFormed _ _ hhead, ih]

theorem interfaceListOf_of_wellFormed (elems : List JSONValue) (es : List networkInterface)
    (h : List.Forall₂ wellFormedEntry elems es) :
    interfaceListOf (.value (.array elems)) = some es := by
  simp only [interfaceListOf, Marshal, Unmarshal, decodeElems_of_wellFormed elems es h]

theorem entryJSON_wellFormed (addr : String) (version : ℚ) (tag : String) :
    wellFormedEntry (entryJSON addr version tag) ⟨addr, version, tag⟩ := by
  refine ⟨_, rfl, ?_, ?_, ?_, ?_⟩
  · simp
  · simp
  · simp
  · intro m hm
    simp only [List.mem_cons, List.mem_singleton, List.not_mem_nil, or_false] at hm
    rcases hm with hm | hm | hm
    · exact Or.inr (Or.inr (Or.inl hm))
    · exact Or.inl hm
    · exact Or.inr (Or.inl hm)

/-! ## Success on well-formed mappings -/

/-- C12: when the blob of every network is a list of objects each carrying a
string address, a numeric IP version and a string interface tag, whatever the
versions and tags are, `NetworkStatus` returns a status and no error; every
list decodes to all of its entries, and (network names unique) the list stored
for each network is built from all of them: the qualifying ones, in order. -/
theorem NetworkStatus_succeeds_on_well_formed (is : InstanceStatus)
    (hshape : ∀ p ∈ is.server.Addresses, ∃ elems es,
      p.2 = Blob.value (.array elems) ∧ List.Forall₂ wellFormedEntry elems es) :
    ∃ ns, is.NetworkStatus = (some ns, none) ∧
      ∀ n elems es, (n, Blob.value (.array elems)) ∈ is.server.Addresses →
        List.Forall₂ wellFormedEntry elems es →
          interfaceListOf (.value (.array elems)) = some es ∧
          ((mapKeys is.server.Addresses).Nodup →
            mapGet ns.addresses n =
              some ((es.filter (fun e => decide (qualifies e))).map toNodeAddress)) := by
  have hdec : ∀ p ∈ is.server.Addresses, ∃ l, interfaceListOf p.2 = some l := by
    intro p hp
    obtain ⟨elems, es, hb, hwf⟩ := hshape p hp
    exact ⟨es, by rw [hb]; exact interfaceListOf_of_wellFormed elems es hwf⟩
  have hns : is.NetworkStatus = (some ⟨normalizedMap [] is.server.Addresses⟩, none) :=
    networkLoop_all_decode _ _ _ _ hdec
  refine ⟨_, hns, ?_⟩
  intro n elems es hmem hwf
  have hl := interfaceListOf_of_wellFormed elems es hwf
  refine ⟨hl, ?_⟩
  intro hunique
  rw [normalizedMap_get_of_mem [] _ hunique n _ hmem, hl, Option.getD_some,
    normalizedList_eq_filter_map]

/-- Witness of C12 on a network whose entries have version 6, an unknown tag,
and version 4 with tag `fixed`. -/
theorem NetworkStatus_succeeds_on_well_formed_witness :
    ∃ ns, scenarioMixed.NetworkStatus = (some ns, none) :=
  (NetworkStatus_succeeds_on_well_formed scenarioMixed (by
    intro p hp
    have hp' : p = ("net", Blob.value (.array [
        .object [("OS-EXT-IPS-MAC:mac_addr", .string "fa:16:3e:00:00:01"),
          ("OS-EXT-IPS:type", .string "fixed"), ("addr", .string "fe80::1"),
          ("version", .number 6)],
        entryJSON "10.0.0.4" 4 "unknown",
        entryJSON "10.0.0.5" 4 "fixed"])) := List.mem_singleton.1 hp
    subst hp'
    refine ⟨_, [⟨"fe80::1", 6, "fixed"⟩, ⟨"10.0.0.4", 4, "unknown"⟩, ⟨"10.0.0.5", 4, "fixed"⟩],
      rfl, ?_⟩
    refine List.Forall₂.cons ?_ (List.Forall₂.cons (entryJSON_wellFormed _ _ _)
      (List.Forall₂.cons (entryJSON_wellFormed _ _ _) List.Forall₂.nil))
    refine ⟨_, rfl, ?_, ?_, ?_, ?_⟩
    · simp
    · simp
    · simp
    · intro m hm
      simp only [List.mem_cons, List.mem_singleton, List.not_mem_nil, or_false] at hm
      rcases hm with hm | hm | hm | hm
      · subst hm
        exact Or.inr (Or.inr (Or.inr ⟨by decide, by decide, by decide⟩))
      · exact Or.inr (Or.inr (Or.inl hm))
      · exact Or.inl hm
      · exact Or.inr (Or.inl hm))).imp (fun _ h => h.1)

/-! ## Dropped entries and their siblings -/

theorem decodeElems_append (pre post : List JSONValue) :
    decodeElems (pre ++ post) =
      match decodeElems pre with
      | .error err => .error err
      | .ok l₁ =>
        match decodeElems post with
        | .error err => .error err
        | .ok l₂ => .ok (l₁ ++ l₂) := by
  induction pre with
  | nil =>
    simp only [List.nil_append, decodeElems]
    cases decodeElems post <;> rfl
  | cons x rest ih =>
    rw [List.cons_append]
    cases hx : decodeElem x with
    | error err => simp only [decodeElems, hx]
    | ok ni =>
      cases hr : decodeElems rest with
      | error err =>
        rw [hr] at ih
        simp only [decodeElems, hx, hr, ih]
      | ok l₁ =>
        rw [hr] at ih
        cases hp : decodeElems post with
        | error err =>
          rw [hp] at ih
          simp only [decodeElems, hx, hr, ih]
        | ok l₂ =>
          rw [hp] at ih
          simp only [decodeElems, hx, hr, ih, List.cons_append]

theorem yield_of_dropped (e : networkInterface)
    (hdrop : e.Version ≠ 4 ∨ (e.Type_ ≠ "fixed" ∧ e.Type_ ≠ "floating")) : yield e = [] := by
  unfold yield
  rcases hdrop with hv | ⟨hfx, hfl⟩
  · simp [hv]
  · simp [hfx, hfl]

theorem blobOutcome_insert_dropped (instanceID : String) (pre post : List JSONValue)
    (x : JSONValue) (e : networkInterface) (hx : decodeElem x = .ok e)
    (hdrop : e.Version ≠ 4 ∨ (e.Type_ ≠ "fixed" ∧ e.Type_ ≠ "floating")) :
    blobOutcome instanceID (.value (.array (pre ++ x :: post))) =
      blobOutcome instanceID (.value (.array (pre ++ post))) := by
  simp only [blobOutcome, Marshal, Unmarshal, decodeElems_append]
  cases decodeElems pre with
  | error err => rfl
  | ok l₁ =>
    simp only [decodeElems, hx]
    cases decodeElems post with
    | error err => rfl
    | ok l₂ =>
      simp only [normalizedList_eq_flatMap, List.flatMap_append, List.flatMap_cons,
        yield_of_dropped e hdrop, List.nil_append]

theorem loopResult_congr (instanceID : String) (entries₁ entries₂ : List (String × Blob))
    (n : String) (b b' : Blob) (h : blobOutcome instanceID b = blobOutcome instanceID b')
    (acc : List (String × List NodeAddress)) :
    loopResult instanceID acc (entries₁ ++ (n, b) :: entries₂) =
      loopResult instanceID acc (entries₁ ++ (n, b') :: entries₂) := by
  induction entries₁ generalizing acc with
  | nil => simp only [List.nil_append, loopResult, h]
  | cons e rest ih =>
    obtain ⟨k, c⟩ := e
    simp only [List.cons_append, loopResult]
    cases blobOutcome instanceID c with
    | error err => rfl
    | ok list => exact ih _

/-- C13: inserting, at any place of the entry list of any network, an entry
that is dropped (its version is not 4, or its tag is neither `fixed` nor
`floating`) leaves the result of `NetworkStatus` as it was; so on a mapping on
which `NetworkStatus` succeeds, the list of that network, `Addresses()` and
every `IP` and `FloatingIP` lookup are unchanged. -/
theorem dropped_entry_has_no_effect (is : InstanceStatus)
    (entries₁ entries₂ : List (String × Blob)) (n : String) (pre post : List JSONValue)
    (x : JSONValue) (e : networkInterface)
    (hraw : is.server.Addresses =
      entries₁ ++ (n, Blob.value (.array (pre ++ post))) :: entries₂)
    (hx : decodeElem x = .ok e)
    (hdrop : e.Version ≠ 4 ∨ (e.Type_ ≠ "fixed" ∧ e.Type_ ≠ "floating")) :
    (is.withAddresses
        (entries₁ ++ (n, Blob.value (.array (pre ++ x :: post))) :: entries₂)).NetworkStatus =
      is.NetworkStatus ∧
    ∀ ns, is.NetworkStatus = (some ns, none) →
      ∃ ns',
        (is.withAddresses
          (entries₁ ++ (n, Blob.value (.array (pre ++ x :: post))) :: entries₂)).NetworkStatus =
            (some ns', none) ∧
        mapGet ns'.addresses n = mapGet ns.addresses n ∧
        ns'.Addresses = ns.Addresses ∧
        ∀ m, ns'.IP m = ns.IP m ∧ ns'.FloatingIP m = ns.FloatingIP m := by
  have heq : (is.withAddresses
        (entries₁ ++ (n, Blob.value (.array (pre ++ x :: post))) :: entries₂)).NetworkStatus =
      is.NetworkStatus := by
    rw [NetworkStatus_eq_loopResult, NetworkStatus_eq_loopResult, hraw]
    exact loopResult_congr is.server.ID entries₁ entries₂ n _ _
      (blobOutcome_insert_dropped is.server.ID pre post x e hx hdrop) []
  refine ⟨heq, ?_⟩
  intro ns hns
  exact ⟨ns, heq.trans hns, rfl, rfl, fun _ => ⟨rfl, rfl⟩⟩

/-- Witness of C13: an entry of version 6 put before the single fixed entry of
a network. -/
theorem dropped_entry_has_no_effect_witness :
    (scenarioFixedOnly.withAddresses
        [("net", Blob.value (.array [entryJSON "fe80::1" 6 "fixed",
          entryJSON "10.0.0.5" 4 "fixed"]))]).NetworkStatus =
      scenarioFixedOnly.NetworkStatus :=
  (dropped_entry_has_no_effect scenarioFixedOnly [] [] "net" []
    [entryJSON "10.0.0.5" 4 "fixed"] (entryJSON "fe80::1" 6 "fixed") ⟨"fe80::1", 6, "fixed"⟩
    rfl (decodeElem_of_wellFormed _ _ (entryJSON_wellFormed _ _ _)) (Or.inl (by decide))).1

/-! ## The notices -/

theorem mapSet_of_not_mem {α : Type} (m : List (String × α)) (k : String) (v : α)
    (h : k ∉ mapKeys m) : mapSet m k v = m ++ [(k, v)] := by
  induction m with
  | nil => rfl
  | cons x rest ih =>
    obtain ⟨kx, vx⟩ := x
    simp only [mapKeys, List.map_cons, List.mem_cons, not_or] at h
    have hne : ¬ kx = k := fun hc => h.1 hc.symm
    simp only [mapSet, if_neg hne, List.cons_append]
    rw [ih h.2]

theorem normalizedMap_of_nodup (acc : List (String × List NodeAddress))
    (entries : List (String × Blob)) (nd : (mapKeys acc ++ mapKeys entries).Nodup) :
    normalizedMap acc entries =
      acc ++ entries.map
        (fun p => (p.1, normalizedList ((interfaceListOf p.2).getD []))) := by
  induction entries generalizing acc with
  | nil => simp [normalizedMap]
  | cons e rest ih =>
    have hnot : e.1 ∉ mapKeys acc := by
      intro hmem
      have := (List.nodup_append.1 nd).2.2
      exact this hmem (by simp [mapKeys])
    rw [normalizedMap_cons, mapSet_of_not_mem _ _ _ hnot, ih]
    · simp
    · have hperm : (mapKeys (acc ++ [(e.1, normalizedList ((interfaceListOf e.2).getD []))]) ++
          mapKeys rest) = mapKeys acc ++ mapKeys (e :: rest) := by
        simp [mapKeys]
      rw [hperm]
      exact nd

theorem NetworkStatus_map_of_nodup (is : InstanceStatus) (ns : InstanceNetworkStatus)
    (hunique : (mapKeys is.server.Addresses).Nodup)
    (hok : is.NetworkStatus = (some ns, none)) :
    ns.addresses = is.server.Addresses.map
      (fun p => (p.1, normalizedList ((interfaceListOf p.2).getD []))) := by
  rw [(NetworkStatus_success is ns hok).2, normalizedMap_of_nodup [] _ (by simpa [mapKeys] using hunique)]
  simp

theorem Addresses_length (m : List (String × List NodeAddress)) (nd : (mapKeys m).Nodup) :
    (InstanceNetworkStatus.Addresses ⟨m⟩).length = (m.map (fun p => p.2.length)).sum := by
  obtain ⟨l, hperm, hsorted⟩ := exists_sorted_perm m nd
  have h1 : InstanceNetworkStatus.Addresses ⟨m⟩ = InstanceNetworkStatus.Addresses ⟨l⟩ :=
    @Addresses_perm_eq m l nd hperm.symm
  rw [h1, Addresses_of_sorted l hsorted, (hperm.flatMap_right Prod.snd).length_eq,
    List.length_flatMap]
  rfl

theorem loopLogs_all_decode (entries : List (String × Blob))
    (h : ∀ p ∈ entries, ∃ l, interfaceListOf p.2 = some l) :
    loopLogs entries =
      entries.flatMap (fun p => ((interfaceListOf p.2).getD []).flatMap notice) := by
  induction entries with
  | nil => rfl
  | cons e rest ih =>
    obtain ⟨n, b⟩ := e
    obtain ⟨l, hl⟩ := h (n, b) (List.mem_cons_self _ _)
    simp only at hl
    simp only [loopLogs, hl, List.flatMap_cons, Option.getD_some]
    rw [ih (fun p hp => h p (List.mem_cons_of_mem _ hp))]

theorem notice_yield_length (e : networkInterface) :
    (notice e).length + (yield e).length = 1 := by
  unfold notice yield
  by_cases hv : e.Version = 4
  · by_cases hfl : e.Type_ = "floating"
    · simp [hv, hfl]
    · by_cases hfx : e.Type_ = "fixed"
      · simp [hv, hfl, hfx]
      · simp [hv, hfl, hfx]
  · simp [hv]

theorem notices_normalized_length (l : List networkInterface) :
    (l.flatMap notice).length + (normalizedList l).length = l.length := by
  rw [normalizedList_eq_flatMap]
  induction l with
  | nil => rfl
  | cons e rest ih =>
    simp only [List.flatMap_cons, List.length_append, List.length_cons]
    have := notice_yield_length e
    omega

theorem notices_total (entries : List (String × Blob)) :
    (entries.flatMap (fun p => ((interfaceListOf p.2).getD []).flatMap notice)).length +
        ((entries.map (fun p => (p.1, normalizedList ((interfaceListOf p.2).getD [])))).map
          (fun q => q.2.length)).sum =
      (entries.map (fun p => ((interfaceListOf p.2).getD []).length)).sum := by
  induction entries with
  | nil => rfl
  | cons e rest ih =>
    simp only [List.flatMap_cons, List.length_append, List.map_cons, List.sum_cons]
    have := notices_normalized_length ((interfaceListOf e.2).getD [])
    omega

theorem notice_of_entry (e : networkInterface) :
    (qualifies e → notice e = []) ∧
      (¬ qualifies e → ∃ c, notice e = [c] ∧ c.V = 6 ∧
        ("address", LogValue.str e.Address) ∈ c.keysAndValues) := by
  unfold qualifies notice
  by_cases hv : e.Version = 4
  · by_cases hfl : e.Type_ = "floating"
    · simp [hv, hfl]
    · by_cases hfx : e.Type_ = "fixed"
      · simp [hv, hfl, hfx]
      · simp [hv, hfl, hfx, unknownTypeNotice]
  · simp [hv, ignoredVersionNotice]

/-- C14: on a raw mapping (network names unique) on which `NetworkStatus`
succeeds, the calls made on the logger are, network by network and entry by
entry, one notice for each dropped entry, carrying its address, and none for a
retained entry; so the number of notices and the number of listed addresses
add up to the number of decoded entries. The result pair is the same whatever
logger the `InstanceStatus` holds. -/
theorem NetworkStatus_notices (is : InstanceStatus) (ns : InstanceNetworkStatus)
    (hunique : (mapKeys is.server.Addresses).Nodup)
    (hok : is.NetworkStatus = (some ns, none)) :
    is.NetworkStatusLogs =
        is.server.Addresses.flatMap
          (fun p => ((interfaceListOf p.2).getD []).flatMap notice) ∧
    (∀ e, (qualifies e → notice e = []) ∧
      (¬ qualifies e → ∃ c, notice e = [c] ∧ c.V = 6 ∧
        ("address", LogValue.str e.Address) ∈ c.keysAndValues)) ∧
    is.NetworkStatusLogs.length + ns.Addresses.length =
      (is.server.Addresses.map (fun p => ((interfaceListOf p.2).getD []).length)).sum ∧
    (∀ logger : Logger,
      InstanceStatus.NetworkStatus ⟨is.server, logger⟩ = is.NetworkStatus) := by
  have hlogs : is.NetworkStatusLogs =
      is.server.Addresses.flatMap
        (fun p => ((interfaceListOf p.2).getD []).flatMap notice) := by
    rw [NetworkStatusLogs_eq_loopLogs]
    exact loopLogs_all_decode _ (NetworkStatus_success is ns hok).1
  refine ⟨hlogs, notice_of_entry, ?_, fun _ => rfl⟩
  have hmap := NetworkStatus_map_of_nodup is ns hunique hok
  have hnd : (mapKeys ns.addresses).Nodup := by
    rw [hmap]
    simpa [mapKeys] using hunique
  have hlen : ns.Addresses.length = (ns.addresses.map (fun p => p.2.length)).sum :=
    Addresses_length ns.addresses hnd
  rw [hlogs, hlen, hmap]
  exact notices_total is.server.Addresses

/-- Witness of C14 on the network with three dropped entries and one retained
entry. -/
theorem NetworkStatus_notices_witness :
    (mapKeys scenarioVersions.server.Addresses).Nodup ∧
      scenarioVersions.NetworkStatus =
        (some ⟨[("net", [⟨NodeInternalIP, "10.0.0.5"⟩])]⟩, none) ∧
      scenarioVersions.NetworkStatusLogs.length +
          (InstanceNetworkStatus.Addresses ⟨[("net", [⟨NodeInternalIP, "10.0.0.5"⟩])]⟩).length =
        (scenarioVersions.server.Addresses.map
          (fun p => ((interfaceListOf p.2).getD []).length)).sum :=
  ⟨by decide, by decide,
    (NetworkStatus_notices scenarioVersions ⟨[("net", [⟨NodeInternalIP, "10.0.0.5"⟩])]⟩
      (by decide) (by decide)).2.2.1⟩

/-! ## Repeated calls -/

theorem callNetworkStatus_eq (is : InstanceStatus) (order : List (String × Blob))
    (sink : List LogCall) :
    is.callNetworkStatus order sink =
      (is, sink ++ loopLogs order, loopResult is.server.ID [] order) := by
  simp [InstanceStatus.callNetworkStatus, networkLoop_eq, InstanceStatus.ID]

theorem loopResult_cases (instanceID : String) (order : List (String × Blob)) :
    ((∀ p ∈ order, ∃ l, interfaceListOf p.2 = some l) ∧
        loopResult instanceID [] order = (some ⟨normalizedMap [] order⟩, none)) ∨
      ((∃ p ∈ order, interfaceListOf p.2 = none) ∧
        ∃ err, loopResult instanceID [] order = (none, some err)) := by
  have hres : (networkLoop instanceID [] [] order).2 = loopResult instanceID [] order := by
    rw [networkLoop_eq]
  by_cases h : ∀ p ∈ order, ∃ l, interfaceListOf p.2 = some l
  · left
    refine ⟨h, ?_⟩
    rw [← hres]
    exact networkLoop_all_decode instanceID [] [] order h
  · right
    have h' : ∃ p ∈ order, interfaceListOf p.2 = none := by
      by_contra hc
      apply h
      intro p hp
      cases hb : interfaceListOf p.2 with
      | none => exact absurd ⟨p, hp, hb⟩ hc
      | some l => exact ⟨l, rfl⟩
    refine ⟨h', ?_⟩
    rw [← hres]
    exact networkLoop_some_fails instanceID [] [] order h'

theorem callAPIInstance_of_ok (is : InstanceStatus) (c : OpenStackCluster)
    (order : List (String × Blob)) (sink : List LogCall) (ns : InstanceNetworkStatus)
    (h : loopResult is.server.ID [] order = (some ns, none)) :
    is.callAPIInstance c order sink =
      (is, sink ++ loopLogs order,
        (some ⟨is.server.ID, is.server.Name, is.server.KeyName, is.server.Status,
          ns.IP c.StatusNetworkName, ns.FloatingIP c.StatusNetworkName⟩, none)) := by
  unfold InstanceStatus.callAPIInstance
  rw [callNetworkStatus_eq]
  simp [h, InstanceStatus.ID, InstanceStatus.Name, InstanceStatus.SSHKeyName,
    InstanceStatus.State]

theorem callAPIInstance_of_error (is : InstanceStatus) (c : OpenStackCluster)
    (order : List (String × Blob)) (sink : List LogCall) (err : GoError)
    (h : loopResult is.server.ID [] order = (none, some err)) :
    is.callAPIInstance c order sink = (is, sink ++ loopLogs order, (none, some err)) := by
  unfold InstanceStatus.callAPIInstance
  rw [callNetworkStatus_eq]
  simp [h]

theorem loopResult_second_success (instanceID : String)
    (raw order₁ order₂ : List (String × Blob)) (hunique : (mapKeys raw).Nodup)
    (h₁ : order₁.Perm raw) (h₂ : order₂.Perm raw) (ns₁ : InstanceNetworkStatus)
    (hok : loopResult instanceID [] order₁ = (some ns₁, none)) :
    (loopLogs order₂).Perm (loopLogs order₁) ∧
      ∃ ns₂, loopResult instanceID [] order₂ = (some ns₂, none) ∧
        (∀ n, mapGet ns₂.addresses n = mapGet ns₁.addresses n) ∧
        ns₂.Addresses = ns₁.Addresses := by
  have hperm : order₂.Perm order₁ := h₂.trans h₁.symm
  have hnd₁ : (mapKeys order₁).Nodup := ((h₁.map Prod.fst).nodup_iff).2 hunique
  have hnd₂ : (mapKeys order₂).Nodup := ((h₂.map Prod.fst).nodup_iff).2 hunique
  rcases loopResult_cases instanceID order₁ with ⟨hdec₁, hres₁⟩ | ⟨_, err, herr⟩
  · have hdec₂ : ∀ p ∈ order₂, ∃ l, interfaceListOf p.2 = some l :=
      fun p hp => hdec₁ p (hperm.mem_iff.1 hp)
    have hres₂ : loopResult instanceID [] order₂ = (some ⟨normalizedMap [] order₂⟩, none) := by
      rcases loopResult_cases instanceID order₂ with ⟨_, hres⟩ | ⟨⟨p, hp, hnone⟩, _⟩
      · exact hres
      · obtain ⟨l, hl⟩ := hdec₂ p hp
        rw [hl] at hnone
        exact absurd hnone (by simp)
    rw [hres₁] at hok
    have hns : ns₁ = ⟨normalizedMap [] order₁⟩ := by
      simp only [Prod.mk.injEq, Option.some.injEq, and_true] at hok
      exact hok.symm
    subst hns
    have hm₁ := normalizedMap_of_nodup [] order₁ (by simpa [mapKeys] using hnd₁)
    have hm₂ := normalizedMap_of_nodup [] order₂ (by simpa [mapKeys] using hnd₂)
    simp only [List.nil_append] at hm₁ hm₂
    have hmp : (normalizedMap [] order₂).Perm (normalizedMap [] order₁) := by
      rw [hm₁, hm₂]
      exact hperm.map _
    have hkeys : (mapKeys (normalizedMap [] order₂)).Nodup := by
      rw [hm₂]
      simpa [mapKeys, Function.comp_def] using hnd₂
    refine ⟨?_, _, hres₂, fun n => mapGet_perm hmp hkeys n, Addresses_perm_eq hkeys hmp⟩
    rw [loopLogs_all_decode order₁ hdec₁, loopLogs_all_decode order₂ hdec₂]
    exact hperm.flatMap_right _
  · rw [herr] at hok
    simp at hok

theorem loopResult_second_failure (instanceID : String)
    (raw order₁ order₂ : List (String × Blob))
    (h₁ : order₁.Perm raw) (h₂ : order₂.Perm raw) (err₁ : GoError)
    (hfail : loopResult instanceID [] order₁ = (none, some err₁)) :
    ∃ err₂, loopResult instanceID [] order₂ = (none, some err₂) := by
  have hperm : order₁.Perm order₂ := h₁.trans h₂.symm
  rcases loopResult_cases instanceID order₁ with ⟨_, hres⟩ | ⟨⟨p, hp, hnone⟩, _⟩
  · rw [hres] at hfail
    simp at hfail
  · rcases loopResult_cases instanceID order₂ with ⟨hdec, _⟩ | ⟨_, herr⟩
    · obtain ⟨l, hl⟩ := hdec p (hperm.mem_iff.1 hp)
      rw [hl] at hnone
      exact absurd hnone (by simp)
    · exact herr

/-- C15, as stated, fails: on the record with three dropped entries, whose one
network leaves a single iteration order, the first call of `NetworkStatus`
makes three calls on the logger and a second call on the same `InstanceStatus`
makes three more. -/
theorem second_call_decodes_again :
    ((scenarioVersions.callNetworkStatus scenarioVersions.server.Addresses []).2.1).length =
        3 ∧
      (((scenarioVersions.callNetworkStatus scenarioVersions.server.Addresses []).1.callNetworkStatus
        scenarioVersions.server.Addresses
        (scenarioVersions.callNetworkStatus scenarioVersions.server.Addresses []).2.1).2.1).length =
        6 := by
  decide

/-- C15, amended: nothing is cached. A call of `NetworkStatus` or of
`APIInstance` leaves the `InstanceStatus` as it was and runs the whole loop
again, in an iteration order of its own; the calls it makes on the logger are
added to those of the first call. When the first call succeeds (network names
unique), the second succeeds with the same list for every network, the same
`Addresses()` and lookups, and the same summary, and makes the same notices
again, up to the order of the networks. When the first call fails, the second
fails too, with the error of the malformed network it meets first, which need
not be the error of the first call. -/
theorem NetworkStatus_recomputed_on_every_call (is : InstanceStatus) (c : OpenStackCluster)
    (order₁ order₂ : List (String × Blob)) (sink : List LogCall)
    (hunique : (mapKeys is.server.Addresses).Nodup)
    (h₁ : order₁.Perm is.server.Addresses) (h₂ : order₂.Perm is.server.Addresses) :
    (is.callNetworkStatus order₁ sink).1 = is ∧
    ((is.callNetworkStatus order₁ sink).1.callNetworkStatus order₂
      (is.callNetworkStatus order₁ sink).2.1).1 = is ∧
    ((is.callNetworkStatus order₁ sink).1.callNetworkStatus order₂
        (is.callNetworkStatus order₁ sink).2.1).2.1 =
      sink ++ (is.callNetworkStatus order₁ []).2.1 ++ (is.callNetworkStatus order₂ []).2.1 ∧
    (∀ ns₁, (is.callNetworkStatus order₁ sink).2.2 = (some ns₁, none) →
      ((is.callNetworkStatus order₂ []).2.1).Perm ((is.callNetworkStatus order₁ []).2.1) ∧
      ∃ ns₂,
        ((is.callNetworkStatus order₁ sink).1.callNetworkStatus order₂
          (is.callNetworkStatus order₁ sink).2.1).2.2 = (some ns₂, none) ∧
        (∀ n, mapGet ns₂.addresses n = mapGet ns₁.addresses n) ∧
        ns₂.Addresses = ns₁.Addresses ∧
        ∀ n, ns₂.IP n = ns₁.IP n ∧ ns₂.FloatingIP n = ns₁.FloatingIP n) ∧
    (∀ err₁, (is.callNetworkStatus order₁ sink).2.2 = (none, some err₁) →
      ∃ err₂,
        ((is.callNetworkStatus order₁ sink).1.callNetworkStatus order₂
          (is.callNetworkStatus order₁ sink).2.1).2.2 = (none, some err₂)) ∧
    (∀ i₁, (is.callAPIInstance c order₁ sink).2.2 = (some i₁, none) →
      (is.callAPIInstance c order₁ sink).1.callAPIInstance c order₂
          (is.callAPIInstance c order₁ sink).2.1 =
        (is, sink ++ (is.callNetworkStatus order₁ []).2.1 ++
          (is.callNetworkStatus order₂ []).2.1, (some i₁, none))) ∧
    (∀ err₁, (is.callAPIInstance c order₁ sink).2.2 = (none, some err₁) →
      ∃ err₂,
        (is.callAPIInstance c order₁ sink).1.callAPIInstance c order₂
            (is.callAPIInstance c order₁ sink).2.1 =
          (is, sink ++ (is.callNetworkStatus order₁ []).2.1 ++
            (is.callNetworkStatus order₂ []).2.1, (none, some err₂))) ∧
    ((scenarioTwoBad.callNetworkStatus
        [("m", .unsupported "chan"), ("u", .value (.string "oops"))] []).2.2 =
      (none, some (.marshalling "id-1" ⟨"chan"⟩)) ∧
    (scenarioTwoBad.callNetworkStatus
        [("u", .value (.string "oops")), ("m", .unsupported "chan")] []).2.2 =
      (none, some (.unmarshalling "id-1" ⟨"string", "[]compute.networkInterface", ""⟩))) := by
  simp only [callNetworkStatus_eq, List.nil_append]
  refine ⟨trivial, trivial, trivial, ?_, ?_, ?_, ?_, by decide⟩
  · intro ns₁ hok
    obtain ⟨hlogs, ns₂, hres, hget, haddr⟩ :=
      loopResult_second_success is.server.ID _ order₁ order₂ hunique h₁ h₂ ns₁ hok
    refine ⟨hlogs, ns₂, hres, hget, haddr, ?_⟩
    intro n
    simp [InstanceNetworkStatus.IP, InstanceNetworkStatus.FloatingIP,
      InstanceNetworkStatus.firstAddressByNetworkAndType, hget n]
  · intro err₁ hfail
    exact loopResult_second_failure is.server.ID _ order₁ order₂ h₁ h₂ err₁ hfail
  · intro i₁ hi
    rcases loopResult_shape is.server.ID [] order₁ with ⟨ns₁, hok⟩ | ⟨err, herr⟩
    · obtain ⟨_, ns₂, hres, hget, _⟩ :=
        loopResult_second_success is.server.ID _ order₁ order₂ hunique h₁ h₂ ns₁ hok
      rw [callAPIInstance_of_ok is c order₁ sink ns₁ hok] at hi ⊢
      rw [callAPIInstance_of_ok is c order₂ _ ns₂ hres]
      simp only [Prod.mk.injEq, Option.some.injEq, and_true] at hi
      rw [← hi]
      simp only [InstanceNetworkStatus.IP, InstanceNetworkStatus.FloatingIP,
        InstanceNetworkStatus.firstAddressByNetworkAndType, hget c.StatusNetworkName]
    · rw [callAPIInstance_of_error is c order₁ sink err herr] at hi
      simp at hi
  · intro err₁ hfail
    rcases loopResult_shape is.server.ID [] order₁ with ⟨ns₁, hok⟩ | ⟨err, herr⟩
    · rw [callAPIInstance_of_ok is c order₁ sink ns₁ hok] at hfail
      simp at hfail
    · obtain ⟨err₂, herr₂⟩ :=
        loopResult_second_failure is.server.ID _ order₁ order₂ h₁ h₂ err herr
      refine ⟨err₂, ?_⟩
      rw [callAPIInstance_of_error is c order₁ sink err herr,
        callAPIInstance_of_error is c order₂ _ err₂ herr₂]

/-- Witness of the amended C15 on scenario A: the first call meets `pub`
first, the second call meets `priv` first. -/
theorem NetworkStatus_recomputed_on_every_call_witness :
    (mapKeys scenarioA.server.Addresses).Nodup ∧
      ∀ ns₁,
        (scenarioA.callNetworkStatus scenarioA.server.Addresses []).2.2 = (some ns₁, none) →
        ((scenarioA.callNetworkStatus
            [("priv", .value (.array [entryJSON "10.0.0.5" 4 "fixed"])),
              ("pub", .value (.array [entryJSON "1.2.3.4" 4 "floating"]))] []).2.1).Perm
          ((scenarioA.callNetworkStatus scenarioA.server.Addresses []).2.1) ∧
        ∃ ns₂,
          ((scenarioA.callNetworkStatus scenarioA.server.Addresses []).1.callNetworkStatus
            [("priv", .value (.array [entryJSON "10.0.0.5" 4 "fixed"])),
              ("pub", .value (.array [entryJSON "1.2.3.4" 4 "floating"]))]
            (scenarioA.callNetworkStatus scenarioA.server.Addresses []).2.1).2.2 =
              (some ns₂, none) ∧
          (∀ n, mapGet ns₂.addresses n = mapGet ns₁.addresses n) ∧
          ns₂.Addresses = ns₁.Addresses ∧
          ∀ n, ns₂.IP n = ns₁.IP n ∧ ns₂.FloatingIP n = ns₁.FloatingIP n :=
  ⟨by decide,
    (NetworkStatus_recomputed_on_every_call scenarioA ⟨"priv"⟩ scenarioA.server.Addresses
      [("priv", .value (.array [entryJSON "10.0.0.5" 4 "fixed"])),
        ("pub", .value (.array [entryJSON "1.2.3.4" 4 "floating"]))] []
      (by decide) (List.Perm.refl _) (List.Perm.swap _ _ _)).2.2.2.1⟩

/-! ## The network names of the normalized mapping -/

theorem mapGet_filter_ne {α : Type} (m : List (String × α)) (n k : String) (h : k ≠ n) :
    mapGet (m.filter (fun p => decide (p.1 ≠ n))) k = mapGet m k := by
  induction m with
  | nil => rfl
  | cons x rest ih =>
    obtain ⟨kx, vx⟩ := x
    simp only [ne_eq, decide_not] at ih ⊢
    have h3 : ¬ n = k := fun hc => h hc.symm
    have h4 : ¬ k = n := h
    by_cases h1 : kx = n
    · have h2 : ¬ kx = k := fun hc => h (hc.symm.trans h1)
      simp [List.filter_cons, h1, mapGet, h3, ih]
    · by_cases h2 : kx = k
      · simp [List.filter_cons, h1, mapGet, h2, h4]
      · simp [List.filter_cons, h1, mapGet, h2, ih]

theorem sortStrings_filter (l : List String) (p : String → Bool) :
    sortStrings (l.filter p) = (sortStrings l).filter p :=
  List.eq_of_perm_of_sorted
    ((sortStrings_perm _).trans ((sortStrings_perm l).filter p).symm)
    (sortStrings_sorted _) ((sortStrings_sorted l).filter p)

theorem flatMap_filter_ne {β : Type} (n : String) (f g : String → List β) (l : List String)
    (hfg : ∀ k, k ≠ n → g k = f k) (hn : f n = []) :
    (l.filter (fun k => decide (k ≠ n))).flatMap g = l.flatMap f := by
  induction l with
  | nil => rfl
  | cons k rest ih =>
    simp only [ne_eq, decide_not] at ih ⊢
    by_cases hk : k = n
    · subst hk
      simp [List.filter_cons, hn, ih]
    · simp [List.filter_cons, hk, hfg k hk, ih]

theorem Addresses_remove_empty (m : List (String × List NodeAddress)) (n : String)
    (h : mapGet m n = some []) :
    InstanceNetworkStatus.Addresses ⟨m⟩ =
      InstanceNetworkStatus.Addresses ⟨m.filter (fun p => decide (p.1 ≠ n))⟩ := by
  rw [Addresses_eq_flatMap, Addresses_eq_flatMap]
  have hkeys : mapKeys (m.filter (fun p => decide (p.1 ≠ n))) =
      (mapKeys m).filter (fun k => decide (k ≠ n)) := by
    simp only [mapKeys, List.filter_map]
    rfl
  simp only [hkeys, sortStrings_filter]
  symm
  apply flatMap_filter_ne
  · intro k hk
    rw [mapGet_filter_ne m n k hk]
  · simp [h]

theorem mapKeys_normalized (entries : List (String × Blob)) :
    mapKeys (entries.map (fun p => (p.1, normalizedList ((interfaceListOf p.2).getD [])))) =
      mapKeys entries := by
  simp [mapKeys, Function.comp_def]

/-- C16: on a raw mapping (network names unique) on which `NetworkStatus`
succeeds, the normalized mapping has the network names of the raw mapping and
no other; a network none of whose decoded entries qualifies (its list may be
empty) is present with an empty list, `Addresses()` is what it is without that
network, and `IP` and `FloatingIP` of it are the empty string. -/
theorem NetworkStatus_keeps_network_names (is : InstanceStatus) (ns : InstanceNetworkStatus)
    (hunique : (mapKeys is.server.Addresses).Nodup)
    (hok : is.NetworkStatus = (some ns, none)) :
    (∀ n, n ∈ mapKeys ns.addresses ↔ n ∈ mapKeys is.server.Addresses) ∧
    (∀ n b l, (n, b) ∈ is.server.Addresses → interfaceListOf b = some l →
      (∀ e ∈ l, ¬ qualifies e) →
        mapGet ns.addresses n = some [] ∧
        ns.Addresses =
          InstanceNetworkStatus.Addresses ⟨ns.addresses.filter (fun p => decide (p.1 ≠ n))⟩ ∧
        ns.IP n = "" ∧ ns.FloatingIP n = "") ∧
    scenarioEmpty.NetworkStatus =
      (some ⟨[("dropped", []), ("empty", []), ("priv", [⟨NodeInternalIP, "10.0.0.5"⟩])]⟩,
        none) := by
  refine ⟨?_, ?_, by decide⟩
  · intro n
    rw [NetworkStatus_map_of_nodup is ns hunique hok, mapKeys_normalized]
  · intro n b l hb hl hnone
    obtain ⟨l', hl', hget⟩ := NetworkStatus_get is ns hunique hok n b hb
    rw [hl] at hl'
    have hll : l = l' := Option.some.inj hl'
    subst hll
    have hempty : normalizedList l = [] := by
      rw [normalizedList_eq_filter_map, List.map_eq_nil_iff, List.filter_eq_nil_iff]
      intro e he
      simpa using hnone e he
    rw [hempty] at hget
    refine ⟨hget, Addresses_remove_empty ns.addresses n hget, ?_, ?_⟩
    · simp [InstanceNetworkStatus.IP, InstanceNetworkStatus.firstAddressByNetworkAndType,
        hget, firstOfType]
    · simp [InstanceNetworkStatus.FloatingIP,
        InstanceNetworkStatus.firstAddressByNetworkAndType, hget, firstOfType]

/-- Witness of C16 on the record with a dropped-only network, an empty network
and a network with one address. -/
theorem NetworkStatus_keeps_network_names_witness :
    (mapKeys scenarioEmpty.server.Addresses).Nodup ∧
      ∀ n, n ∈ mapKeys
          (InstanceNetworkStatus.mk
            [("dropped", []), ("empty", []), ("priv", [⟨NodeInternalIP, "10.0.0.5"⟩])]).addresses ↔
        n ∈ mapKeys scenarioEmpty.server.Addresses :=
  ⟨by decide,
    (NetworkStatus_keeps_network_names scenarioEmpty
      ⟨[("dropped", []), ("empty", []), ("priv", [⟨NodeInternalIP, "10.0.0.5"⟩])]⟩
      (by decide) (by decide)).1⟩

/-! ## Lookups and listing -/

theorem firstOfType_mem_of_exists (t : NodeAddressType) (list : List NodeAddress)
    (h : ∃ a ∈ list, a.Type_ = t) : ⟨t, firstOfType t list⟩ ∈ list := by
  induction list with
  | nil =>
    obtain ⟨a, ha, _⟩ := h
    simp at ha
  | cons x rest ih =>
    by_cases hx : x.Type_ = t
    · obtain ⟨t', addr⟩ := x
      simp only at hx
      subst hx
      simp [firstOfType]
    · simp only [firstOfType, if_neg hx]
      apply List.mem_cons_of_mem
      apply ih
      obtain ⟨a, ha, hat⟩ := h
      rcases List.mem_cons.1 ha with rfl | ha'
      · exact absurd hat hx
      · exact ⟨a, ha', hat⟩

theorem Addresses_perm_flatMap (m : List (String × List NodeAddress))
    (nd : (mapKeys m).Nodup) :
    (InstanceNetworkStatus.Addresses ⟨m⟩).Perm (m.flatMap Prod.snd) := by
  obtain ⟨l, hperm, hsorted⟩ := exists_sorted_perm m nd
  have h1 : InstanceNetworkStatus.Addresses ⟨m⟩ = InstanceNetworkStatus.Addresses ⟨l⟩ :=
    @Addresses_perm_eq m l nd hperm.symm
  rw [h1, Addresses_of_sorted l hsorted]
  exact hperm.flatMap_right Prod.snd

/-- C17: for a mapping with unique network names, if network `n` has an
internal entry then the pair of kind internal and `IP(n)` is an element of
`Addresses()`, and likewise for an external entry and `FloatingIP(n)`; the
elements of `Addresses()` are the entries of the per-network lists, each as
often as it is stored, so its length is the sum of the lengths of the lists. -/
theorem lookups_agree_with_listing (ns : InstanceNetworkStatus)
    (hunique : (mapKeys ns.addresses).Nodup) :
    (∀ n list, mapGet ns.addresses n = some list →
      (∃ a ∈ list, a.Type_ = NodeInternalIP) → ⟨NodeInternalIP, ns.IP n⟩ ∈ ns.Addresses) ∧
    (∀ n list, mapGet ns.addresses n = some list →
      (∃ a ∈ list, a.Type_ = NodeExternalIP) →
        ⟨NodeExternalIP, ns.FloatingIP n⟩ ∈ ns.Addresses) ∧
    (∀ a, a ∈ ns.Addresses ↔ ∃ n list, mapGet ns.addresses n = some list ∧ a ∈ list) ∧
    ns.Addresses.Perm (ns.addresses.flatMap Prod.snd) ∧
    ns.Addresses.length = (ns.addresses.map (fun p => p.2.length)).sum := by
  refine ⟨?_, ?_, mem_Addresses_iff ns, Addresses_perm_flatMap ns.addresses hunique,
    Addresses_length ns.addresses hunique⟩
  · intro n list hg hex
    rw [mem_Addresses_iff]
    refine ⟨n, list, hg, ?_⟩
    simp only [InstanceNetworkStatus.IP, InstanceNetworkStatus.firstAddressByNetworkAndType, hg]
    exact firstOfType_mem_of_exists _ list hex
  · intro n list hg hex
    rw [mem_Addresses_iff]
    refine ⟨n, list, hg, ?_⟩
    simp only [InstanceNetworkStatus.FloatingIP,
      InstanceNetworkStatus.firstAddressByNetworkAndType, hg]
    exact firstOfType_mem_of_exists _ list hex

/-- Witness of C17 on the normalized mapping of scenario A. -/
theorem lookups_agree_with_listing_witness :
    (mapKeys statusA.addresses).Nodup ∧
      statusA.Addresses.length = (statusA.addresses.map (fun p => p.2.length)).sum :=
  ⟨by decide, (lookups_agree_with_listing statusA (by decide)).2.2.2.2⟩

/-! ## Independence of the networks -/

theorem mapGet_map_snd {α β : Type} (m : List (String × α)) (g : α → β) (n : String) :
    mapGet (m.map (fun p => (p.1, g p.2))) n = (mapGet m n).map g := by
  induction m with
  | nil => rfl
  | cons x rest ih =>
    obtain ⟨k, v⟩ := x
    by_cases h : k = n
    · simp [mapGet, h]
    · simp [mapGet, h, ih]

/-- C18: for two raw mappings (network names unique) on which `NetworkStatus`
succeeds and which hold the same blob for network `n`, or both none, the list
stored for `n`, `IP(n)` and `FloatingIP(n)` are equal, whatever the other
networks hold; so when `n` is the cluster network the summaries of
`APIInstance` have the same IP and the same floating IP. -/
theorem networks_normalized_independently (is₁ is₂ : InstanceStatus)
    (ns₁ ns₂ : InstanceNetworkStatus)
    (hunique₁ : (mapKeys is₁.server.Addresses).Nodup)
    (hunique₂ : (mapKeys is₂.server.Addresses).Nodup)
    (hok₁ : is₁.NetworkStatus = (some ns₁, none))
    (hok₂ : is₂.NetworkStatus = (some ns₂, none)) (n : String)
    (hagree : mapGet is₁.server.Addresses n = mapGet is₂.server.Addresses n) :
    mapGet ns₁.addresses n = mapGet ns₂.addresses n ∧
    ns₁.IP n = ns₂.IP n ∧ ns₁.FloatingIP n = ns₂.FloatingIP n ∧
    ∀ c : OpenStackCluster, c.StatusNetworkName = n →
      ∃ i₁ i₂, is₁.APIInstance c = (some i₁, none) ∧ is₂.APIInstance c = (some i₂, none) ∧
        i₁.IP = i₂.IP ∧ i₁.FloatingIP = i₂.FloatingIP := by
  have hget : mapGet ns₁.addresses n = mapGet ns₂.addresses n := by
    rw [NetworkStatus_map_of_nodup is₁ ns₁ hunique₁ hok₁,
      NetworkStatus_map_of_nodup is₂ ns₂ hunique₂ hok₂,
      mapGet_map_snd _ (fun b => normalizedList ((interfaceListOf b).getD [])),
      mapGet_map_snd _ (fun b => normalizedList ((interfaceListOf b).getD [])), hagree]
  have hip : ns₁.IP n = ns₂.IP n := by
    simp only [InstanceNetworkStatus.IP, InstanceNetworkStatus.firstAddressByNetworkAndType,
      hget]
  have hfip : ns₁.FloatingIP n = ns₂.FloatingIP n := by
    simp only [InstanceNetworkStatus.FloatingIP,
      InstanceNetworkStatus.firstAddressByNetworkAndType, hget]
  refine ⟨hget, hip, hfip, ?_⟩
  intro c hc
  refine ⟨_, _, APIInstance_of_ok is₁ c ns₁ hok₁, APIInstance_of_ok is₂ c ns₂ hok₂, ?_, ?_⟩
  · simp only [hc, hip]
  · simp only [hc, hfip]

/-- Witness of C18 on scenario A and a record that shares its network `priv`. -/
theorem networks_normalized_independently_witness :
    mapGet statusA.addresses "priv" =
      mapGet (InstanceNetworkStatus.mk
        [("priv", [⟨NodeInternalIP, "10.0.0.5"⟩]),
          ("other", [⟨NodeExternalIP, "192.168.0.9"⟩])]).addresses "priv" :=
  (networks_normalized_independently scenarioA scenarioOther statusA
    ⟨[("priv", [⟨NodeInternalIP, "10.0.0.5"⟩]), ("other", [⟨NodeExternalIP, "192.168.0.9"⟩])]⟩
    (by decide) (by decide) (by decide) (by decide) "priv" (by
      simp [mapGet, scenarioA, scenarioOther])).1

end Compute
